import Mathlib

/-!
Verification of the streaming code-generation pipeline of spin-ai
(`src/app/api/anthropic/route.ts`, the streaming display component, and the
client stream consumers), as a shallow embedding over `List Char`.

JS strings are modelled as `List Char` (one entry per Unicode scalar), JS
objects used as string maps as association lists in insertion order, and
fallible code as `Except`/`Option`.  All definitions are executable.
-/

namespace Spin

/-- JS strings are modelled as lists of characters. -/
abbrev Str := List Char

/-- Conversion helper for writing concrete strings. -/
def str (s : String) : Str := s.data

/-- A FileState: a JS object mapping file paths to file contents, modelled as
an association list in property insertion order.  (JS additionally fronts
integer-like keys; no theorem below depends on entry order, only on key
membership and lookups, so insertion order is kept throughout.) -/
abbrev FileState := List (Str × Str)

-- Named characters (kept out of literals so the development stays readable).
def chQuote : Char := Char.ofNat 34
def chBackslash : Char := Char.ofNat 92
def chLBrace : Char := Char.ofNat 123
def chRBrace : Char := Char.ofNat 125
def chLBrack : Char := Char.ofNat 91
def chRBrack : Char := Char.ofNat 93
def chTick : Char := Char.ofNat 96
def chLF : Char := Char.ofNat 10
def chCR : Char := Char.ofNat 13
def chTab : Char := Char.ofNat 9
def chBS : Char := Char.ofNat 8
def chFF : Char := Char.ofNat 12
def chVT : Char := Char.ofNat 11

/-- Does `pat` occur as a leading segment of `s`? -/
def leadMatch : Str → Str → Bool
  | [], _ => true
  | _ :: _, [] => false
  | p :: ps, c :: cs => p = c && leadMatch ps cs

/-- First occurrence of `pat` in `s`: returns the text before the occurrence
and the text after it (`String.prototype.indexOf`-style leftmost search). -/
def splitFirst (pat : Str) : Str → Option (Str × Str)
  | [] => if leadMatch pat [] then some ([], []) else none
  | c :: rest =>
    if leadMatch pat (c :: rest) then some ([], (c :: rest).drop pat.length)
    else
      match splitFirst pat rest with
      | some (b, a) => some (c :: b, a)
      | none => none

/-- Whitespace for JS `\s` / `String.prototype.trim` (ASCII part; the Unicode
space classes never occur in the inputs considered here). -/
def isJsWs (c : Char) : Bool :=
  c = ' ' || c = chTab || c = chLF || c = chCR || c = chFF || c = chVT

/-- Drop trailing characters satisfying `p`. -/
def dropTrailing (p : Char → Bool) (s : Str) : Str :=
  (s.reverse.dropWhile p).reverse

/-- `String.prototype.trim`. -/
def trimStr (s : Str) : Str := dropTrailing isJsWs (s.dropWhile isJsWs)

def digitChar (n : Nat) : Char := Char.ofNat (48 + n)

def natToStrGo : Nat → Nat → Str
  | 0, _ => []
  | fuel + 1, n => if n < 10 then [digitChar n] else natToStrGo fuel (n / 10) ++ [digitChar (n % 10)]

/-- Decimal rendering of a natural number. -/
def natToStr (n : Nat) : Str := natToStrGo (n + 1) n

/-! ## JSON values, `JSON.stringify` on string maps, and `JSON.parse` -/

/-- Parsed JSON values.  Numbers are kept as their source lexeme; every claim
below only ever parses objects whose values are strings, so no theorem depends
on numeric (float) semantics. -/
inductive JsonValue where
  | null : JsonValue
  | bool (b : Bool) : JsonValue
  | num (lexeme : Str) : JsonValue
  | str (s : Str) : JsonValue
  | arr (elems : List JsonValue) : JsonValue
  | obj (members : List (Str × JsonValue)) : JsonValue

def hexDigitChar (n : Nat) : Char :=
  if n < 10 then Char.ofNat (48 + n) else Char.ofNat (87 + n)

/-- `JSON.stringify` escaping of one character (ECMA-262 QuoteJSONString). -/
def escChar (c : Char) : Str :=
  if c = chQuote then [chBackslash, chQuote]
  else if c = chBackslash then [chBackslash, chBackslash]
  else if c = chBS then [chBackslash, 'b']
  else if c = chTab then [chBackslash, 't']
  else if c = chLF then [chBackslash, 'n']
  else if c = chFF then [chBackslash, 'f']
  else if c = chCR then [chBackslash, 'r']
  else if c.toNat < 32 then
    [chBackslash, 'u', '0', '0', hexDigitChar (c.toNat / 16), hexDigitChar (c.toNat % 16)]
  else [c]

def escStr : Str → Str
  | [] => []
  | c :: rest => escChar c ++ escStr rest

/-- `JSON.stringify` of a single string. -/
def quoteStr (s : Str) : Str := chQuote :: escStr s ++ [chQuote]

def serializeEntry (e : Str × Str) : Str := quoteStr e.1 ++ ':' :: quoteStr e.2

def serializeBody : FileState → Str
  | [] => []
  | [e] => serializeEntry e
  | e :: rest => serializeEntry e ++ ',' :: serializeBody rest

/-- `JSON.stringify(F)` (no indent) for a FileState `F`: the JSON serialization
of a path-to-content map. -/
def serializeFileState (F : FileState) : Str :=
  chLBrace :: serializeBody F ++ [chRBrace]

/-- JSON (RFC 8259) whitespace, as accepted by `JSON.parse`. -/
def isJsonWs (c : Char) : Bool :=
  c = ' ' || c = chTab || c = chLF || c = chCR

def skipWs (s : Str) : Str := s.dropWhile isJsonWs

def isHexDigit (c : Char) : Bool :=
  ('0' ≤ c && c ≤ '9') || ('a' ≤ c && c ≤ 'f') || ('A' ≤ c && c ≤ 'F')

def hexVal (c : Char) : Nat :=
  if '0' ≤ c && c ≤ '9' then c.toNat - 48
  else if 'a' ≤ c && c ≤ 'f' then c.toNat - 87
  else c.toNat - 55

/-- Single-character JSON string escapes (other than `\uXXXX`). -/
def unescapeChar (c : Char) : Option Char :=
  if c = chQuote then some chQuote
  else if c = chBackslash then some chBackslash
  else if c = '/' then some '/'
  else if c = 'b' then some chBS
  else if c = 'f' then some chFF
  else if c = 'n' then some chLF
  else if c = 'r' then some chCR
  else if c = 't' then some chTab
  else none

/-- Parse the body of a JSON string literal (input starts right after the
opening quote); returns the decoded string and the remaining input after the
closing quote.  Raw control characters are rejected, as in `JSON.parse`.
`\uXXXX` escapes decode via `Char.ofNat` (surrogate pairing is immaterial for
every input considered in this development). -/
def parseStringBody : Str → Option (Str × Str)
  | [] => none
  | c :: rest =>
    if c = chQuote then some ([], rest)
    else if c = chBackslash then
      match rest with
      | [] => none
      | e :: rest2 =>
        if e = 'u' then
          match rest2 with
          | h1 :: h2 :: h3 :: h4 :: rest3 =>
            if isHexDigit h1 && isHexDigit h2 && isHexDigit h3 && isHexDigit h4 then
              match parseStringBody rest3 with
              | some (s, r) =>
                some (Char.ofNat (((hexVal h1 * 16 + hexVal h2) * 16 + hexVal h3) * 16 + hexVal h4) :: s, r)
              | none => none
            else none
          | _ => none
        else
          match unescapeChar e with
          | some u =>
            match parseStringBody rest2 with
            | some (s, r) => some (u :: s, r)
            | none => none
          | none => none
    else if c.toNat < 32 then none
    else
      match parseStringBody rest with
      | some (s, r) => some (c :: s, r)
      | none => none

def isDigit (c : Char) : Bool := '0' ≤ c && c ≤ '9'

/-- Scan the digits/frac/exp tail of a JSON number lexeme. -/
def scanDigits : Str → Str × Str
  | [] => ([], [])
  | c :: rest =>
    if isDigit c then
      let (d, r) := scanDigits rest
      (c :: d, r)
    else ([], c :: rest)

/-- Scan a JSON number lexeme starting at the current position (JSON grammar:
`-? int frac? exp?` with no leading zeros). -/
def scanNumber (s : Str) : Option (Str × Str) :=
  let (neg, s1) : Str × Str :=
    match s with
    | c :: rest => if c = '-' then ([c], rest) else ([], s)
    | [] => ([], [])
  match s1 with
  | [] => none
  | c :: rest =>
    if c = '0' then
      let intPart : Str := [c]
      let afterInt := rest
      let (frac, s2) : Str × Str :=
        match afterInt with
        | '.' :: r =>
          let (d, r2) := scanDigits r
          if d = [] then ([], afterInt) else ('.' :: d, r2)
        | _ => ([], afterInt)
      if frac = [] && (match afterInt with | '.' :: _ => true | _ => false) then none
      else
        let (ex, s3) : Str × Str :=
          match s2 with
          | e :: r =>
            if e = 'e' || e = 'E' then
              let (sgn, r1) : Str × Str :=
                match r with
                | sc :: rr => if sc = '+' || sc = '-' then ([sc], rr) else ([], r)
                | [] => ([], [])
              let (d, r2) := scanDigits r1
              if d = [] then ([], s2) else (e :: sgn ++ d, r2)
            else ([], s2)
          | [] => ([], [])
        some (neg ++ intPart ++ frac ++ ex, s3)
    else if isDigit c then
      let (d, s1a) := scanDigits rest
      let intPart := c :: d
      let (frac, s2) : Str × Str :=
        match s1a with
        | '.' :: r =>
          let (dd, r2) := scanDigits r
          if dd = [] then ([], s1a) else ('.' :: dd, r2)
        | _ => ([], s1a)
      if frac = [] && (match s1a with | '.' :: _ => true | _ => false) then none
      else
        let (ex, s3) : Str × Str :=
          match s2 with
          | e :: r =>
            if e = 'e' || e = 'E' then
              let (sgn, r1) : Str × Str :=
                match r with
                | sc :: rr => if sc = '+' || sc = '-' then ([sc], rr) else ([], r)
                | [] => ([], [])
              let (dd, r2) := scanDigits r1
              if dd = [] then ([], s2) else (e :: sgn ++ dd, r2)
            else ([], s2)
          | [] => ([], [])
        some (neg ++ intPart ++ frac ++ ex, s3)
    else none

/-- Mode of the fueled JSON parser: a value, the members of an object (input
positioned right after the opening brace), or the items of an array. -/
inductive ParseMode where
  | value : ParseMode
  | members : ParseMode
  | items : ParseMode

inductive ParsePiece where
  | val (v : JsonValue) : ParsePiece
  | members (kvs : List (Str × JsonValue)) : ParsePiece
  | items (vs : List JsonValue) : ParsePiece

/-- Recursive-descent JSON parser (`JSON.parse` grammar), fueled to satisfy
termination; the wrapper supplies more fuel than any input can consume. -/
def parseF : Nat → ParseMode → Str → Option (ParsePiece × Str)
  | 0, _, _ => none
  | fuel + 1, ParseMode.value, s =>
    let s := skipWs s
    match s with
    | [] => none
    | c :: rest =>
      if c = chQuote then
        match parseStringBody rest with
        | some (v, r) => some (.val (.str v), r)
        | none => none
      else if c = chLBrace then
        match parseF fuel ParseMode.members rest with
        | some (.members kvs, r) => some (.val (.obj kvs), r)
        | _ => none
      else if c = chLBrack then
        match parseF fuel ParseMode.items rest with
        | some (.items vs, r) => some (.val (.arr vs), r)
        | _ => none
      else if leadMatch (str "true") s then some (.val (.bool true), s.drop 4)
      else if leadMatch (str "false") s then some (.val (.bool false), s.drop 5)
      else if leadMatch (str "null") s then some (.val .null, s.drop 4)
      else
        match scanNumber s with
        | some (lex, r) => some (.val (.num lex), r)
        | none => none
  | fuel + 1, ParseMode.members, s =>
    let s1 := skipWs s
    match s1 with
    | [] => none
    | c :: rest =>
      if c = chRBrace then some (.members [], rest)
      else if c = chQuote then
        match parseStringBody rest with
        | some (k, r1) =>
          match skipWs r1 with
          | ':' :: r2 =>
            match parseF fuel ParseMode.value r2 with
            | some (.val v, r3) =>
              match skipWs r3 with
              | ',' :: r4 =>
                match parseF fuel ParseMode.members r4 with
                | some (.members kvs, r5) => some (.members ((k, v) :: kvs), r5)
                | _ => none
              | d :: r4 =>
                if d = chRBrace then some (.members [(k, v)], r4) else none
              | [] => none
            | _ => none
          | _ => none
        | none => none
      else none
  | fuel + 1, ParseMode.items, s =>
    let s1 := skipWs s
    match s1 with
    | [] => none
    | c :: rest =>
      if c = chRBrack then some (.items [], rest)
      else
        match parseF fuel ParseMode.value s1 with
        | some (.val v, r1) =>
          match skipWs r1 with
          | ',' :: r2 =>
            match parseF fuel ParseMode.items r2 with
            | some (.items vs, r3) => some (.items (v :: vs), r3)
            | _ => none
          | d :: r2 => if d = chRBrack then some (.items [v], r2) else none
          | [] => none
        | _ => none

/-- `JSON.parse`: parse one JSON value, allowing surrounding whitespace and
rejecting trailing garbage. -/
def jsonParse (s : Str) : Option JsonValue :=
  match parseF (s.length + 1) ParseMode.value s with
  | some (.val v, rest) => if skipWs rest = [] then some v else none
  | _ => none

/-! ## The extractor `extractAndParseJSON` (route.ts:135-203) -/

def fenceOpen : Str := str "```json"
def tick3 : Str := str "```"
def nlTick3 : Str := chLF :: tick3

/-- The fenced-code-block capture
`responseText.match(/```json\s*([\s\S]*?)\s*```/)`, group 1.  Leftmost-match
regex semantics unfolded for this pattern: the match starts at the first
`` ```json ``; the greedy `\s*` then takes the maximal whitespace run; the
lazy group extends to the earliest following `` ``` ``, with the greedy
trailing `\s*` peeling the maximal whitespace run right before it off the
group.  (If the first `` ```json `` has no following `` ``` `` then no later
`` ```json `` exists either, so returning no match is exact.) -/
def fenceMatch (s : Str) : Option Str :=
  match splitFirst fenceOpen s with
  | none => none
  | some (_, rest) =>
    let body := rest.dropWhile isJsWs
    match splitFirst tick3 body with
    | none => none
    | some (before, _) => some (dropTrailing isJsWs before)

/-- The brace-depth scan of route.ts:144-165, started on a text whose head is
the first `{`; returns the number of characters up to and including the brace
closing the depth-0 opening, or `none` when the loop ends without a break. -/
def braceScanLen : Str → Int → Bool → Bool → Option Nat
  | [], _, _, _ => none
  | c :: rest, braceCount, inString, escaped =>
    if inString then
      if escaped then (braceScanLen rest braceCount true false).map (· + 1)
      else if c = chBackslash then (braceScanLen rest braceCount true true).map (· + 1)
      else if c = chQuote then (braceScanLen rest braceCount false false).map (· + 1)
      else (braceScanLen rest braceCount true false).map (· + 1)
    else
      if c = chLBrace then (braceScanLen rest (braceCount + 1) false false).map (· + 1)
      else if c = chRBrace then
        if braceCount - 1 = 0 then some 1
        else (braceScanLen rest (braceCount - 1) false false).map (· + 1)
      else if c = chQuote then (braceScanLen rest braceCount true false).map (· + 1)
      else (braceScanLen rest braceCount false false).map (· + 1)

/-- route.ts:142-170: locate the first `{` and take the brace-matched span as
the candidate; on no `{`, or no matching close, keep the whole text. -/
def braceSpanCandidate (s : Str) : Str :=
  match splitFirst [chLBrace] s with
  | none => s
  | some (_, afterBrace) =>
    let fromBrace := chLBrace :: afterBrace
    match braceScanLen fromBrace 0 false false with
    | some n => fromBrace.take n
    | none => s

/-- Fueled worker for `replaceFences`; each step consumes at least one
character, so fuel equal to the length always suffices. -/
def replaceFencesGo : Nat → Str → Str
  | 0, s => s
  | _ + 1, [] => []
  | fuel + 1, c :: rest =>
    if leadMatch fenceOpen (c :: rest) then replaceFencesGo fuel ((c :: rest).drop 7)
    else if leadMatch tick3 (c :: rest) then replaceFencesGo fuel ((c :: rest).drop 3)
    else if leadMatch nlTick3 (c :: rest) then replaceFencesGo fuel ((c :: rest).drop 4)
    else c :: replaceFencesGo fuel rest

/-- `jsonText.replace(/```json|```|\n```/g, "")` (route.ts:173): global
leftmost scan, alternatives tried left to right at each position. -/
def replaceFences (s : Str) : Str := replaceFencesGo s.length s

/-- Is a parsed JSON number lexeme the number zero (for JS truthiness)? -/
def numLexIsZero (lex : Str) : Bool :=
  let noSign := match lex with
    | c :: rest => if c = '-' then rest else lex
    | [] => []
  let mantissa := (noSign.takeWhile (fun c => c ≠ 'e' && c ≠ 'E'))
  mantissa.all (fun c => c = '0' || c = '.')

/-- JS truthiness of a JSON value. -/
def jsTruthy : JsonValue → Bool
  | .null => false
  | .bool b => b
  | .num lex => !numLexIsZero lex
  | .str s => !s.isEmpty
  | .arr _ => true
  | .obj _ => true

/-- JS `String(v)` coercion of a parsed JSON value.  Numbers keep their source
lexeme (exact for the integer lexemes that can appear here); nested composites
use the standard `Array.prototype.toString` / `"[object Object]"` renderings.
No theorem below exercises the composite branches. -/
def jsToString : JsonValue → Str
  | .null => str "null"
  | .bool true => str "true"
  | .bool false => str "false"
  | .num lex => lex
  | .str s => s
  | .arr vs => jsArrToString vs
  | .obj _ => str "[object Object]"
where
  jsArrToString : List JsonValue → Str
    | [] => []
    | [v] =>
      (match v with
       | .null => []
       | w => jsToString w)
    | v :: rest =>
      (match v with
       | .null => []
       | w => jsToString w) ++ ',' :: jsArrToString rest

/-- `Object.entries(parsed)` for the values `JSON.parse` can return, paired
with the `typeof parsed !== "object" || parsed === null` guard of
route.ts:178-180: objects and arrays pass, everything else throws. -/
def jsEntries : JsonValue → Option (List (Str × JsonValue))
  | .obj kvs => some kvs
  | .arr vs => some (((List.range vs.length).zip vs).map fun p => (natToStr p.1, p.2))
  | _ => none

/-- JS object property assignment `m[k] = v`: replace in place if the key
exists, otherwise append. -/
def objInsert : FileState → Str → Str → FileState
  | [], k, v => [(k, v)]
  | (k0, v0) :: rest, k, v =>
    if k0 = k then (k0, v) :: rest else (k0, v0) :: objInsert rest k v

/-- JS object property read `m[path]` (`undefined` as `none`). -/
def lookupFS (k : Str) : FileState → Option Str
  | [] => none
  | (k0, v) :: rest => if k0 = k then some v else lookupFS k rest

/-- JS spread merge `{...a, ...b}`. -/
def objMerge (a b : FileState) : FileState :=
  b.foldl (fun acc kv => objInsert acc kv.1 kv.2) a

/-- route.ts:187: `typeof content === "string" ? content : String(content)`. -/
def coerceVal : JsonValue → Str
  | .str s => s
  | v => jsToString v

/-- `extractAndParseJSON` (route.ts:135-203).  All throws inside the `try` are
wrapped by the catch into `Failed to parse generated code: <inner>`; the
engine-specific `SyntaxError` message of `JSON.parse` is abstracted to a fixed
string (no theorem depends on its text). -/
def extractAndParseJSON (responseText : Str) : Except Str FileState :=
  let jsonText :=
    match fenceMatch responseText with
    | some captured => captured
    | none => braceSpanCandidate responseText
  let jsonText := trimStr (replaceFences jsonText)
  let fail (msg : Str) : Except Str FileState :=
    Except.error (str "Failed to parse generated code: " ++ msg)
  match jsonParse jsonText with
  | none => fail (str "Unexpected token in JSON")
  | some parsed =>
    match jsEntries parsed with
    | none => fail (str "Response is not a valid object")
    | some kvs =>
      let files := kvs.foldl (fun acc kv => objInsert acc kv.1 (coerceVal kv.2)) []
      if files.isEmpty then fail (str "No files generated")
      else Except.ok files

/-! ## The reconciler `detectFileChanges` (route.ts:280-301) -/

inductive FileStatus where
  | new : FileStatus
  | updated : FileStatus
  | deleted : FileStatus
deriving DecidableEq, Repr

structure FileChange where
  path : Str
  status : FileStatus
  previousContent : Option Str
deriving DecidableEq, Repr

/-- JS truthiness of a possibly-undefined string (`undefined` and `""` are
falsy). -/
def truthyS : Option Str → Bool
  | none => false
  | some s => !s.isEmpty

/-- Fueled worker for `setDedup`; fuel equal to the length always suffices. -/
def setDedupGo : Nat → List Str → List Str
  | 0, l => l
  | _ + 1, [] => []
  | fuel + 1, x :: xs => x :: setDedupGo fuel (xs.filter (· ≠ x))

/-- `new Set([...])` insertion-order deduplication. -/
def setDedup (l : List Str) : List Str := setDedupGo l.length l

/-- Loop body of `detectFileChanges` (route.ts:287-298) for one path: the
JS falsiness of both `undefined` and the empty string drives the `new` /
`deleted` guards, and the final `!==` guard compares possibly-undefined
strings. -/
def classifyPath (previousFiles newFiles : FileState) (path : Str) : Option FileChange :=
  let prevContent := lookupFS path previousFiles
  let newContent := lookupFS path newFiles
  if !truthyS prevContent && truthyS newContent then
    some ⟨path, .new, none⟩
  else if truthyS prevContent && !truthyS newContent then
    some ⟨path, .deleted, prevContent⟩
  else if prevContent ≠ newContent then
    some ⟨path, .updated, prevContent⟩
  else none

/-- `detectFileChanges` (route.ts:280-301). -/
def detectFileChanges (previousFiles newFiles : FileState) : List FileChange :=
  let allPaths := setDedup (previousFiles.map (·.1) ++ newFiles.map (·.1))
  allPaths.filterMap (classifyPath previousFiles newFiles)

/-! ## The retry wrapper `fetchWithRetry` (route.ts:109-132) -/

instance {ε α : Type} [DecidableEq ε] [DecidableEq α] : DecidableEq (Except ε α) := fun a b =>
  match a, b with
  | .ok x, .ok y => if h : x = y then isTrue (by rw [h]) else isFalse (by simp [h])
  | .error x, .error y => if h : x = y then isTrue (by rw [h]) else isFalse (by simp [h])
  | .ok _, .error _ => isFalse (by simp)
  | .error _, .ok _ => isFalse (by simp)

/-- One upstream `fetch` outcome: an HTTP response with a status code, or a
rejected promise (network failure). -/
inductive FetchResp where
  | response (status : Nat) : FetchResp
  | netError (msg : Str) : FetchResp

/-- Exact model of the JS numbers reachable from an integer backoff by
`backoff *= 2` and `backoff *= 1.5`: dyadic rationals `mant / 2 ^ shift`
(these double operations are exact in this range).  Each value of one run is
kept in the representation the operations produce, so structural equality is
value equality for everything compared below. -/
structure Duration where
  mant : Nat
  shift : Nat
deriving DecidableEq

def Duration.ofNat (n : Nat) : Duration := ⟨n, 0⟩

/-- `backoff *= 2`. -/
def Duration.double (d : Duration) : Duration := ⟨d.mant * 2, d.shift⟩

/-- `backoff *= 1.5`. -/
def Duration.sesqui (d : Duration) : Duration := ⟨d.mant * 3, d.shift + 1⟩

/-- Observable behaviour of one `fetchWithRetry` call: how many `fetch`
attempts were made, the `setTimeout` sleep durations in order, and the final
outcome (status of the returned response, or message of the thrown error). -/
structure RetryRun where
  attempts : Nat
  sleeps : List Duration
  outcome : Except Str Nat
deriving DecidableEq

/-- The `for` loop of route.ts:115-130; `fuel` is the number of loop
iterations left (`retries - attempt + 1`), `respOf n` the result of the n-th
`fetch` call. -/
def fetchRetryGo (respOf : Nat → FetchResp) (retries : Nat) :
    Nat → Nat → Duration → List Duration → Nat → RetryRun
  | 0, _, _, sleeps, made => ⟨made, sleeps, .error (str "Max retries reached")⟩
  | fuel + 1, attempt, backoff, sleeps, made =>
    match respOf attempt with
    | .response st =>
      if st = 529 && attempt < retries then
        fetchRetryGo respOf retries fuel (attempt + 1) backoff.double (sleeps ++ [backoff]) (made + 1)
      else if !(200 ≤ st && st ≤ 299) then
        if attempt = retries then ⟨made + 1, sleeps, .error (str "Status: " ++ natToStr st)⟩
        else fetchRetryGo respOf retries fuel (attempt + 1) backoff.sesqui (sleeps ++ [backoff]) (made + 1)
      else ⟨made + 1, sleeps, .ok st⟩
    | .netError msg =>
      if attempt = retries then ⟨made + 1, sleeps, .error msg⟩
      else fetchRetryGo respOf retries fuel (attempt + 1) backoff.sesqui (sleeps ++ [backoff]) (made + 1)

/-- `fetchWithRetry(url, options, retries, backoff)`; every call site uses the
default arguments `retries = 3`, `backoff = 1000`. -/
def fetchWithRetry (respOf : Nat → FetchResp) (retries : Nat) (backoff : Duration) :
    RetryRun :=
  fetchRetryGo respOf retries retries 1 backoff [] 0

/-! ## Conversation store operations (route.ts:936-960 and 1043-1066) -/

structure UploadedFile where
  id : Int
  name : Str
  type : Str
  size : Int
  content : Str
  lastModified : Int
deriving DecidableEq

structure ConversationTurn where
  prompt : Str
  timestamp : Int
  fileChanges : List FileChange
  fullState : FileState
deriving DecidableEq

structure Conversation where
  userId : Str
  initialPrompt : Str
  uploadedFiles : List UploadedFile
  conversationTurns : List ConversationTurn
  currentFiles : FileState
deriving DecidableEq

/-- The iterative-update persistence step (route.ts:937-944 / 1044-1051):
push the turn, overwrite `currentFiles`, then one `conversation.save()` of the
resulting document. -/
def appendTurnOp (conversation : Conversation) (prompt : Str) (timestamp : Int)
    (fileChanges : List FileChange) (fullFileState : FileState) : Conversation :=
  { conversation with
    conversationTurns := conversation.conversationTurns ++ [⟨prompt, timestamp, fileChanges, fullFileState⟩],
    currentFiles := fullFileState }

/-- The new-conversation persistence step (route.ts:947-959 / 1053-1065). -/
def newConversationOp (userId prompt : Str) (timestamp : Int)
    (uploadedFiles : List UploadedFile) (newFiles : FileState)
    (fullFileState : FileState) : Conversation :=
  { userId := userId,
    initialPrompt := prompt,
    uploadedFiles := uploadedFiles,
    conversationTurns :=
      [⟨prompt, timestamp, (newFiles.map (·.1)).map (fun path => ⟨path, .new, none⟩), fullFileState⟩],
    currentFiles := fullFileState }

/-! ## The streaming generation task (route.ts:862-987) -/

inductive SEvent where
  | status (message : Str) : SEvent
  | progress (content : Str) : SEvent
  | file (fileName content : Str) (changeType : FileStatus) : SEvent
  | complete (conversationId : Str) (changedFiles : List FileChange)
      (fullFiles : FileState) (isIterativeUpdate : Bool) : SEvent
  | error (msg : Str) : SEvent
deriving DecidableEq

def lookupJ (k : Str) : List (Str × JsonValue) → Option JsonValue
  | [] => none
  | (k0, v) :: rest => if k0 = k then some v else lookupJ k rest

/-- JS property read `v[k]` on a parsed JSON value (`undefined` elsewhere). -/
def objGetJ (k : Str) : JsonValue → Option JsonValue
  | .obj kvs => lookupJ k kvs
  | _ => none

/-- `chunk.split("\n")`. -/
def splitOnChar (sep : Char) : Str → List Str
  | [] => [[]]
  | c :: rest =>
    if c = sep then [] :: splitOnChar sep rest
    else
      match splitOnChar sep rest with
      | l :: ls => (c :: l) :: ls
      | [] => [[c]]

/-- route.ts:901-919, for one line of the upstream SSE body: the text delta
accumulated into `fullResponse` (and echoed as a `progress` event), if any:
the line must start with `data: `, its payload must not be `[DONE]`, must
parse as JSON (parse failures are swallowed), have `type` strictly equal to
`content_block_delta`, and a truthy `delta.text` (coerced by `+=` to a
string). -/
def deltaOfLine (line : Str) : Option Str :=
  if leadMatch (str "data: ") line then
    let data := line.drop 6
    if data = str "[DONE]" then none
    else
      match jsonParse data with
      | none => none
      | some parsed =>
        match objGetJ (str "type") parsed with
        | some (.str t) =>
          if t = str "content_block_delta" then
            match (objGetJ (str "delta") parsed).bind (objGetJ (str "text")) with
            | some tv => if jsTruthy tv then some (jsToString tv) else none
            | none => none
          else none
        | _ => none
  else none

/-- Text deltas extracted from one decoded chunk (route.ts:900). -/
def chunkDeltas (chunk : Str) : List Str :=
  (splitOnChar chLF chunk).filterMap deltaOfLine

/-- Upstream behaviour seen by the streaming task: `fetchWithRetry` threw, the
response had no body, or a sequence of decoded body chunks. -/
inductive UpstreamResult where
  | failure (msg : Str) : UpstreamResult
  | noBody : UpstreamResult
  | success (chunks : List Str) : UpstreamResult

/-- External effects of one streaming generation run: the upstream fetch and
the persistence write (`conversation.save()`); a successful save yields the
document id sent in the `complete` event. -/
structure StreamingEnv where
  upstream : UpstreamResult
  saveResult : Except Str Str

/-- The async streaming task (route.ts:862-987) as the list of SSE events it
enqueues, in order.  The `try/catch/finally` structure is mirrored by the
match cascade: any thrown error becomes one final `error` event.  The
persistence write happens before any `file` event and before `complete`
(route.ts:936-960 precede 963-981). -/
def runStreamingTask (env : StreamingEnv) (isIterativeUpdate : Bool)
    (existingFiles : Option FileState) (convFiles : Option FileState) : List SEvent :=
  let statusEvt := SEvent.status
    (if isIterativeUpdate then str "Applying changes..." else str "Starting generation...")
  match env.upstream with
  | .failure msg => [statusEvt, .error msg]
  | .noBody => [statusEvt, .error (str "Empty stream body")]
  | .success chunks =>
    let deltas := chunks.flatMap chunkDeltas
    let progressEvts := deltas.map SEvent.progress
    let fullResponse := deltas.foldl (· ++ ·) []
    match extractAndParseJSON fullResponse with
    | .error msg => statusEvt :: progressEvts ++ [.error msg]
    | .ok newFiles =>
      let previousFiles :=
        match existingFiles with
        | some ef => ef
        | none => match convFiles with | some cf => cf | none => []
      let fullFileState := objMerge previousFiles newFiles
      let fileChanges := detectFileChanges previousFiles newFiles
      match env.saveResult with
      | .error msg => statusEvt :: progressEvts ++ [.error msg]
      | .ok convId =>
        let fileEvts := newFiles.map fun kv =>
          SEvent.file kv.1 kv.2
            (match fileChanges.find? (fun c => decide (c.path = kv.1)) with
             | some c => c.status
             | none => .new)
        statusEvt :: progressEvts ++ fileEvts ++
          [SEvent.complete convId fileChanges
            (if isIterativeUpdate then fullFileState else newFiles) isIterativeUpdate]

/-! ## POST request validation (route.ts:801-856) and the non-streaming run
(route.ts:998-1079) -/

structure PostRequest where
  prompt : Option Str
  existingFiles : Option FileState
  uploadedFiles : Option (List UploadedFile)
  streaming : Bool
  userId : Str
  conversationId : Option Str
  isIterativeUpdate : Bool

/-- Environment consulted by the guards: the MongoDB connection attempt, the
`ANTHROPIC_API_KEY` environment variable, and the `Conversation.findById`
result (consulted only on the iterative path). -/
structure PostEnv where
  connectMongo : Except Str Unit
  apiKey : Option Str
  findById : Option Conversation

/-- Early outcome of the POST handler: an error JSON response with an HTTP
status, or fall-through to generation (with the loaded conversation on the
iterative path). -/
inductive PostGuard where
  | respond (status : Nat) (errorMsg : Str) : PostGuard
  | proceed (conversation : Option Conversation) : PostGuard
deriving DecidableEq

def truthyOptStr (s : Option Str) : Bool :=
  match s with
  | none => false
  | some v => !v.isEmpty

/-- The guard chain of `POST` (route.ts:803-856): Mongo connect (failure is
caught at the handler boundary as a 500), the 400 prompt/uploads check, the
500 missing-key check, then the 404 unknown-conversation check on the
iterative path. -/
def postGuards (env : PostEnv) (req : PostRequest) : PostGuard :=
  match env.connectMongo with
  | .error msg => .respond 500 msg
  | .ok _ =>
    if !truthyOptStr req.prompt &&
        (match req.uploadedFiles with | none => true | some l => l.length = 0) then
      .respond 400 (str "Prompt or uploaded files required")
    else if !truthyOptStr env.apiKey then
      .respond 500 (str "Missing API key")
    else if req.isIterativeUpdate && truthyOptStr req.conversationId then
      match env.findById with
      | none => .respond 404 (str "Conversation not found")
      | some conversation => .proceed (some conversation)
    else .proceed none

/-- Parsed body of the provider response consumed by the non-streaming path:
the `text` of each `content` block (absent property as `none`) and
`stop_reason`. -/
structure ApiResponse where
  content : List (Option Str)
  stopReason : Option Str
deriving DecidableEq

/-- External effects of the non-streaming path. -/
structure NonStreamingEnv where
  fetchResult : Except Str ApiResponse
  saveResult : Except Str Str
deriving DecidableEq

/-- The 200-response payload of the non-streaming path (route.ts:1068-1075). -/
structure PostSuccess where
  files : FileState
  fullFiles : FileState
  changedFiles : List FileChange
  conversationId : Str
  userId : Str
  isIterativeUpdate : Bool
deriving DecidableEq

/-- The non-streaming tail of `POST` (route.ts:998-1075); a thrown error is
caught at the handler boundary and served as `{ error }` with HTTP 500. -/
def runNonStreaming (env : NonStreamingEnv) (isIterativeUpdate : Bool)
    (existingFiles : Option FileState) (convFiles : Option FileState)
    (userId : Str) : Except Str PostSuccess :=
  match env.fetchResult with
  | .error msg => .error msg
  | .ok data =>
    if data.stopReason = some (str "max_tokens") then
      .error (str "Response truncated: Increase max_tokens or simplify prompt")
    else
      let responseText := (data.content.head?).bind id
      if !truthyOptStr responseText then
        .error (str "No content generated by Anthropic API")
      else
        match extractAndParseJSON (responseText.getD []) with
        | .error msg => .error msg
        | .ok newFiles =>
          let previousFiles :=
            match existingFiles with
            | some ef => ef
            | none => match convFiles with | some cf => cf | none => []
          let fullFileState := objMerge previousFiles newFiles
          let fileChanges := detectFileChanges previousFiles newFiles
          match env.saveResult with
          | .error msg => .error msg
          | .ok convId =>
            .ok ⟨newFiles, fullFileState, fileChanges, convId, userId, isIterativeUpdate⟩

/-! ## The character-reveal scheduler (`MultiFileStreamingDisplay`,
src/unnamed/part_001:21-108) -/

/-- Component state touched by the streaming effect: the revealed content per
file, the file/character cursors, and the completion latches.  `completions`
is a ghost counter of `onAllFilesComplete` invocations. -/
structure SchedState where
  displayedFiles : FileState
  currentFileIndex : Nat
  currentCharIndex : Nat
  isComplete : Bool
  hasNavigated : Bool
  completions : Nat
deriving DecidableEq

inductive SchedAction where
  | tick : SchedAction
  | advance : SchedAction
  | complete : SchedAction
  | idle : SchedAction
deriving DecidableEq

/-- State after the reset effect for a fresh `files` value
(part_001:43-49). -/
def schedInit : SchedState := ⟨[], 0, 0, false, false, 0⟩

/-- One run of the streaming effect (part_001:51-96).  A `tick` step is the
`setTimeout` body revealing one character; `advance` and `complete` happen
synchronously on the following effect runs. -/
def schedStep (files : FileState) (s : SchedState) : SchedState × SchedAction :=
  let fileNames := files.map (·.1)
  if fileNames.length = 0 then (s, .idle)
  else
    let currentFileName := fileNames.getD s.currentFileIndex []
    let currentFileContent := (lookupFS currentFileName files).getD []
    if s.currentCharIndex < currentFileContent.length then
      ({ s with
          displayedFiles :=
            objInsert s.displayedFiles currentFileName
              (currentFileContent.take (s.currentCharIndex + 1)),
          currentCharIndex := s.currentCharIndex + 1 }, .tick)
    else if s.currentFileIndex < fileNames.length - 1 then
      ({ s with currentFileIndex := s.currentFileIndex + 1, currentCharIndex := 0 }, .advance)
    else if !s.isComplete && !s.hasNavigated then
      ({ s with
          isComplete := true,
          hasNavigated := true,
          completions := s.completions + 1 }, .complete)
    else (s, .idle)

/-- Iterated effect runs from an arbitrary state. -/
def schedRunFrom (files : FileState) (s : SchedState) : Nat → SchedState
  | 0 => s
  | n + 1 => (schedStep files (schedRunFrom files s n)).1

/-- State after `n` effect runs for a fixed `files` input. -/
def schedRun (files : FileState) (n : Nat) : SchedState :=
  schedRunFrom files schedInit n

/-- The action performed by effect run `n` (0-based). -/
def schedAction (files : FileState) (n : Nat) : SchedAction :=
  (schedStep files (schedRun files n)).2

/-- Total character count of a FileState (the `L` of the claims). -/
def totalLen (files : FileState) : Nat :=
  files.foldr (fun kv acc => kv.2.length + acc) 0

/-- Effect runs needed to reach completion: every character once, plus one
advance per file but the last, plus the completion run. -/
def totalSteps (files : FileState) : Nat := totalLen files + files.length

/-! ## The client stream consumers (src/app/workspace/page.tsx:333-408 and
src/unnamed/part_003:148-197) -/

/-- One parsed SSE payload as read by the clients (absent JSON fields as
`none`). -/
structure ClientEvent where
  type : Str
  fileName : Option Str
  content : Option Str
  changeType : Option Str
  fullFiles : Option FileState
  changedFiles : Option (List FileChange)
  conversationId : Option Str
  error : Option Str
deriving DecidableEq

/-- Client state of the workspace chat consumer touched by the event loop. -/
structure WsState where
  streamedFiles : FileState
  generatedFilesList : List Str
  changedFiles : List FileChange
  files : FileState
  conversationId : Option Str
  isStreaming : Bool
deriving DecidableEq

/-- `parsed.changeType || "new"` mapped into a `FileStatus` (the workspace
stores the wire string; statuses off the wire are the three enum values). -/
def changeTypeOrNew (o : Option Str) : FileStatus :=
  match o with
  | some s =>
    if s = str "updated" then .updated
    else if s = str "deleted" then .deleted
    else .new
  | none => .new

/-- One iteration of the workspace consumer's event dispatch
(page.tsx:338-403).  `prevFiles` is the snapshot captured before the loop; a
thrown `error` event aborts the stream processing. -/
def wsProcessEvent (prevFiles : FileState) (st : WsState) (e : ClientEvent) :
    Except Str WsState :=
  if e.type = str "file" && truthyOptStr e.fileName && truthyOptStr e.content then
    let fileName := e.fileName.getD []
    let content := e.content.getD []
    Except.ok
      { st with
        streamedFiles := objInsert st.streamedFiles fileName content,
        generatedFilesList :=
          if st.generatedFilesList.contains fileName then st.generatedFilesList
          else st.generatedFilesList ++ [fileName],
        changedFiles :=
          if (st.changedFiles.find? (fun c => decide (c.path = fileName))).isSome then
            st.changedFiles
          else st.changedFiles ++ [⟨fileName, changeTypeOrNew e.changeType, none⟩] }
  else if e.type = str "complete" then
    Except.ok
      { st with
        files := e.fullFiles.getD prevFiles,
        changedFiles := e.changedFiles.getD [],
        conversationId :=
          if truthyOptStr e.conversationId then e.conversationId else st.conversationId,
        isStreaming := false }
  else if e.type = str "error" then
    Except.error (match e.error with
      | some m => if m.isEmpty then str "Streaming error occurred" else m
      | none => str "Streaming error occurred")
  else Except.ok st

/-- Client state of the streaming-page consumer (part_003). -/
structure P3State where
  generatedFiles : FileState
deriving DecidableEq

/-- One iteration of the streaming page's `switch (data.type)`
(part_003:163-194). -/
def p3ProcessEvent (st : P3State) (e : ClientEvent) : Except Str P3State :=
  if e.type = str "file" then
    if truthyOptStr e.fileName && truthyOptStr e.content then
      Except.ok ⟨objInsert st.generatedFiles (e.fileName.getD []) (e.content.getD [])⟩
    else Except.ok st
  else if e.type = str "error" then
    Except.error (match e.error with
      | some m => if m.isEmpty then str "Unknown error" else m
      | none => str "Unknown error")
  else Except.ok st

/-! # Theorems

Claim theorems, their witnesses/counterexamples, and the supporting lemmas. -/

/-- Uncurried `appendTurnOp`, for folding a sequence of appends. -/
def applyAppend (c : Conversation) (a : Str × Int × List FileChange × FileState) :
    Conversation :=
  appendTurnOp c a.1 a.2.1 a.2.2.1 a.2.2.2

/-- `fullState` of the most recently appended turn, if any. -/
def lastTurnFullState (c : Conversation) : Option FileState :=
  c.conversationTurns.getLast?.map ConversationTurn.fullState

def isTerminalEvt : SEvent → Bool
  | .complete _ _ _ _ => true
  | .error _ => true
  | _ => false

def isCompleteEvt : SEvent → Bool
  | .complete _ _ _ _ => true
  | _ => false

def isErrorEvt : SEvent → Bool
  | .error _ => true
  | _ => false

/-- Did every stage of the streaming task succeed: the upstream fetch, the
extraction of the accumulated deltas, and the persistence write? -/
def streamStagesOk (env : StreamingEnv) : Bool :=
  match env.upstream with
  | .success chunks =>
    match extractAndParseJSON ((chunks.flatMap chunkDeltas).foldl (· ++ ·) []) with
    | .ok _ => match env.saveResult with | .ok _ => true | .error _ => false
    | .error _ => false
  | _ => false

def nameAt (files : FileState) (i : Nat) : Str := (files.map Prod.fst).getD i []

def sndAt (files : FileState) (i : Nat) : Str := (files.map Prod.snd).getD i []

def keepNonEmpty (files : FileState) : FileState := files.filter (fun kv => !kv.2.isEmpty)

/-- The `displayedFiles` map after fully revealing the first `i` files and `c`
characters of file `i` (empty files never receive an entry). -/
def canonDisplayed (files : FileState) (i c : Nat) : FileState :=
  keepNonEmpty (files.take i) ++
    (if c = 0 then [] else [(nameAt files i, (sndAt files i).take c)])

/-- The component state while revealing character `c` of file `i`. -/
def canonState (files : FileState) (i c : Nat) : SchedState :=
  ⟨canonDisplayed files i c, i, c, false, false, 0⟩

/-- The component state after the completion effect run. -/
def doneState (files : FileState) : SchedState :=
  ⟨keepNonEmpty files, files.length - 1, (sndAt files (files.length - 1)).length,
    true, true, 1⟩

/-- Total number of characters currently revealed. -/
def revealedTotal (s : SchedState) : Nat := totalLen s.displayedFiles

/-- Number of effect runs before the run that reveals the first character of
file `i`: every character of an earlier file plus its advance run. -/
def stepsBefore (files : FileState) (i : Nat) : Nat :=
  ((files.take i).map (fun kv => kv.2.length + 1)).sum

/-- Concrete input for the C9 witness: three files (one empty), five
characters in total. -/
def schedFilesW : FileState := [(str "a", str "xy"), (str "b", []), (str "c", str "zuv")]

/-- No three consecutive backticks (the substring `` ``` `` does not occur). -/
def noTriple : Str → Bool
  | c1 :: c2 :: c3 :: rest =>
    !(c1 = chTick && c2 = chTick && c3 = chTick) && noTriple (c2 :: c3 :: rest)
  | _ => true

/-- The fenced wrapping of a payload considered by the claim. -/
def fenceWrap (s : Str) : Str := str "```json" ++ chLF :: s ++ chLF :: str "```"

/-- The members of the JSON object parsed back from a serialized FileState. -/
def jsonEntries (F : FileState) : List (Str × JsonValue) :=
  F.map (fun kv => (kv.1, JsonValue.str kv.2))

/-- Concrete FileState whose content contains `` ``` ``, for the C1
counterexample. -/
def cexTickF : FileState := [(str "a.js", str "x" ++ tick3)]

/-- JSON object member text `"k": v` (input construction only). -/
def mkPair (k : Str) (v : Str) : Str := quoteStr k ++ ':' :: v

def mkObj1 (p1 : Str) : Str := chLBrace :: p1 ++ [chRBrace]

def mkObj2 (p1 p2 : Str) : Str := chLBrace :: p1 ++ ',' :: p2 ++ [chRBrace]

def cexInnerFiles : FileState := [(str "/a.js", str "1")]

/-- A `content_block_delta` frame whose text is a complete serialized
FileState. -/
def cexDeltaLine : Str :=
  str "data: " ++ mkObj2
    (mkPair (str "type") (quoteStr (str "content_block_delta")))
    (mkPair (str "delta")
      (mkObj1 (mkPair (str "text") (quoteStr (serializeFileState cexInnerFiles)))))

/-- A `message_delta` frame reporting `stop_reason: "max_tokens"`. -/
def cexStopLine : Str :=
  str "data: " ++ mkObj2
    (mkPair (str "type") (quoteStr (str "message_delta")))
    (mkPair (str "delta") (mkObj1 (mkPair (str "stop_reason") (quoteStr (str "max_tokens")))))

def cexStreamEnv : StreamingEnv :=
  ⟨UpstreamResult.success [cexDeltaLine ++ chLF :: cexStopLine], Except.ok (str "id1")⟩

theorem lastTurnFullState_applyAppend (c : Conversation)
    (a : Str × Int × List FileChange × FileState) :
    lastTurnFullState (applyAppend c a) = some (applyAppend c a).currentFiles := by
  simp [applyAppend, appendTurnOp, lastTurnFullState]

theorem storeInv_fold (appends : List (Str × Int × List FileChange × FileState)) :
    ∀ c : Conversation, lastTurnFullState c = some c.currentFiles →
      lastTurnFullState (appends.foldl applyAppend c) =
        some (appends.foldl applyAppend c).currentFiles := by
  induction appends with
  | nil => intro c h; exact h
  | cons a rest ih =>
    intro c _
    rw [List.foldl_cons]
    exact ih (applyAppend c a) (lastTurnFullState_applyAppend c a)

/-- C7: after every append of a turn (the push + `currentFiles` overwrite done
in one document before the single `save()` of route.ts:936-960 / 1043-1066),
`currentFiles` equals the appended turn's `fullState`; this holds for every
sequence of appends started from a newly created conversation, in both code
paths (both are the same two store operations). -/
theorem store_append_invariant :
    (∀ (c : Conversation) (p : Str) (t : Int) (fc : List FileChange) (fs : FileState),
      (appendTurnOp c p t fc fs).currentFiles = fs ∧
      (appendTurnOp c p t fc fs).conversationTurns = c.conversationTurns ++ [⟨p, t, fc, fs⟩]) ∧
    (∀ (userId prompt : Str) (ts : Int) (ups : List UploadedFile)
      (newFiles fullSt : FileState)
      (appends : List (Str × Int × List FileChange × FileState)),
      lastTurnFullState
          (appends.foldl applyAppend (newConversationOp userId prompt ts ups newFiles fullSt)) =
        some (appends.foldl applyAppend
          (newConversationOp userId prompt ts ups newFiles fullSt)).currentFiles) := by
  refine ⟨fun c p t fc fs => ⟨rfl, rfl⟩, ?_⟩
  intro userId prompt ts ups newFiles fullSt appends
  exact storeInv_fold appends _ (by simp [newConversationOp, lastTurnFullState])

/-- C4 counterexample: with an upstream that always answers HTTP 529, the
sleep sequence is `[1000, 2000]`, not the `[1000, 2000, 4000]` the claim
states — there is no sleep after the third (final) attempt. -/
theorem retry_always529_sleeps_cex :
    (fetchWithRetry (fun _ => FetchResp.response 529) 3 (Duration.ofNat 1000)).sleeps ≠
      [Duration.ofNat 1000, Duration.ofNat 2000, Duration.ofNat 4000] ∧
    (fetchWithRetry (fun _ => FetchResp.response 529) 3 (Duration.ofNat 1000)).attempts = 3 := by
  decide

/-- C4 (amended): with an upstream that always answers HTTP 529 and the
source's arguments (3 retries, 1000ms starting backoff), the wrapper makes
exactly 3 fetch attempts, sleeps 1000ms after the first failure and 2000ms
after the second, and then surfaces the terminal `Status: 529` failure with no
third sleep. -/
theorem retry_always529_run :
    fetchWithRetry (fun _ => FetchResp.response 529) 3 (Duration.ofNat 1000) =
      ⟨3, [Duration.ofNat 1000, Duration.ofNat 2000], Except.error (str "Status: 529")⟩ := by
  decide

/-- C8: the POST guard chain — 400 when neither prompt nor uploaded files are
supplied, 500 when the API key is absent (prior check passed), 404 when an
iterative update names a conversation that does not resolve (prior checks
passed). -/
theorem post_guard_statuses (env : PostEnv) (req : PostRequest)
    (hmongo : env.connectMongo = Except.ok ()) :
    (req.prompt = none →
      (req.uploadedFiles = none ∨ req.uploadedFiles = some []) →
      postGuards env req = .respond 400 (str "Prompt or uploaded files required")) ∧
    ((truthyOptStr req.prompt = true ∨ ∃ l, req.uploadedFiles = some l ∧ l ≠ []) →
      env.apiKey = none →
      postGuards env req = .respond 500 (str "Missing API key")) ∧
    ((truthyOptStr req.prompt = true ∨ ∃ l, req.uploadedFiles = some l ∧ l ≠ []) →
      truthyOptStr env.apiKey = true →
      req.isIterativeUpdate = true →
      (∃ cid, req.conversationId = some cid ∧ cid ≠ []) →
      env.findById = none →
      postGuards env req = .respond 404 (str "Conversation not found")) := by
  have hpass :
      (truthyOptStr req.prompt = true ∨ ∃ l, req.uploadedFiles = some l ∧ l ≠ []) →
      (!truthyOptStr req.prompt &&
        (match req.uploadedFiles with | none => true | some l => l.length = 0)) = false := by
    rintro (hp | ⟨l, hl, hne⟩)
    · simp [hp]
    · rw [hl]
      simp [List.length_eq_zero, hne]
  refine ⟨?_, ?_, ?_⟩
  · intro hp hu
    have h1 : (!truthyOptStr req.prompt &&
        (match req.uploadedFiles with | none => true | some l => l.length = 0)) = true := by
      rcases hu with hu | hu <;> simp [hp, hu, truthyOptStr]
    rw [postGuards, hmongo, h1]
    rfl
  · intro hfirst hkey
    have hk : truthyOptStr env.apiKey = false := by rw [hkey]; rfl
    rw [postGuards, hmongo, hpass hfirst, hk]
    rfl
  · intro hfirst hkey hiter hcid hfind
    rcases hcid with ⟨cid, hc, hcne⟩
    have hc2 : truthyOptStr req.conversationId = true := by
      rw [hc]
      simp [truthyOptStr, List.isEmpty_iff, hcne]
    rw [postGuards, hmongo, hpass hfirst, hkey, hiter, hc2, hfind]
    rfl

theorem lookupFS_eq_none_iff (k : Str) (m : FileState) :
    lookupFS k m = none ↔ k ∉ m.map Prod.fst := by
  induction m with
  | nil => simp [lookupFS]
  | cons kv rest ih =>
    simp only [lookupFS, List.map_cons, List.mem_cons]
    by_cases h : kv.1 = k
    · simp [h]
    · rw [if_neg h, ih]
      push_neg
      constructor
      · intro hk
        exact ⟨fun he => h he.symm, hk⟩
      · intro hk
        exact hk.2

theorem lookupFS_cons_ne (k : Str) (kv : Str × Str) (rest : FileState) (h : kv.1 ≠ k) :
    lookupFS k (kv :: rest) = lookupFS k rest := by
  simp [lookupFS, h]

theorem lookupFS_of_mem_nodup (m : FileState) (hnd : (m.map Prod.fst).Nodup)
    (k : Str) (v : Str) (hm : (k, v) ∈ m) : lookupFS k m = some v := by
  induction m with
  | nil => cases hm
  | cons kv rest ih =>
    rw [List.map_cons] at hnd
    rcases List.mem_cons.mp hm with h | h
    · rw [← h]; simp [lookupFS]
    · have hk : kv.1 ≠ k := by
        intro he
        have hmem : k ∈ rest.map Prod.fst := List.mem_map.mpr ⟨(k, v), h, rfl⟩
        exact (List.nodup_cons.mp hnd).1 (he ▸ hmem)
      rw [lookupFS_cons_ne _ _ _ hk]
      exact ih (List.nodup_cons.mp hnd).2 h

theorem setDedupGo_fuel (f1 : Nat) :
    ∀ (f2 : Nat) (l : List Str), l.length ≤ f1 → l.length ≤ f2 →
      setDedupGo f1 l = setDedupGo f2 l := by
  induction f1 with
  | zero =>
    intro f2 l h1 _
    rw [List.length_eq_zero.mp (Nat.le_zero.mp h1)]
    cases f2 <;> rfl
  | succ f ih =>
    intro f2 l h1 h2
    match l, f2, h1, h2 with
    | [], g, _, _ => cases g <;> rfl
    | x :: xs, g + 1, h1, h2 =>
      simp only [setDedupGo]
      have hf : (xs.filter (· ≠ x)).length ≤ xs.length := List.length_filter_le _ _
      rw [ih g (xs.filter (· ≠ x))
        (le_trans hf (Nat.le_of_succ_le_succ h1))
        (le_trans hf (Nat.le_of_succ_le_succ h2))]

theorem setDedup_cons (x : Str) (xs : List Str) :
    setDedup (x :: xs) = x :: setDedup (xs.filter (· ≠ x)) := by
  simp only [setDedup, List.length_cons, setDedupGo]
  rw [setDedupGo_fuel xs.length (xs.filter (· ≠ x)).length (xs.filter (· ≠ x))
    (List.length_filter_le _ _) (le_refl _)]

theorem setDedupGo_spec : ∀ (fuel : Nat) (l : List Str), l.length ≤ fuel →
    (setDedupGo fuel l).Nodup ∧ ∀ p, p ∈ setDedupGo fuel l ↔ p ∈ l := by
  intro fuel
  induction fuel with
  | zero =>
    intro l h
    rw [List.length_eq_zero.mp (Nat.le_zero.mp h)]
    simp [setDedupGo]
  | succ f ih =>
    intro l h
    match l with
    | [] => simp [setDedupGo]
    | x :: xs =>
      simp only [setDedupGo]
      have hle : (xs.filter (· ≠ x)).length ≤ f :=
        le_trans (List.length_filter_le _ _) (Nat.le_of_succ_le_succ h)
      obtain ⟨hnd, hmem⟩ := ih (xs.filter (· ≠ x)) hle
      refine ⟨List.nodup_cons.mpr ⟨?_, hnd⟩, ?_⟩
      · intro hx
        have hf := (hmem x).mp hx
        have := (List.mem_filter.mp hf).2
        simp at this
      · intro p
        rw [List.mem_cons, hmem p]
        constructor
        · rintro (rfl | hp)
          · exact List.mem_cons_self _ _
          · exact List.mem_cons_of_mem _ (List.mem_filter.mp hp).1
        · intro hp
          by_cases hpx : p = x
          · exact Or.inl hpx
          · rcases List.mem_cons.mp hp with hh | hh
            · exact Or.inl hh
            · exact Or.inr (List.mem_filter.mpr ⟨hh, by simp [hpx]⟩)

theorem setDedup_nodup (l : List Str) : (setDedup l).Nodup :=
  (setDedupGo_spec l.length l (le_refl _)).1

theorem mem_setDedup (l : List Str) (p : Str) : p ∈ setDedup l ↔ p ∈ l :=
  (setDedupGo_spec l.length l (le_refl _)).2 p

theorem setDedup_eq_self (l : List Str) (h : l.Nodup) : setDedup l = l := by
  induction l with
  | nil => rfl
  | cons x xs ih =>
    rw [setDedup_cons]
    have hf : xs.filter (· ≠ x) = xs := by
      refine List.filter_eq_self.mpr (fun a ha => ?_)
      simp
      exact fun he => (List.nodup_cons.mp h).1 (he ▸ ha)
    rw [hf, ih (List.nodup_cons.mp h).2]
theorem classifyPath_eq_none_iff (A B : FileState) (p : Str) :
    classifyPath A B p = none ↔ lookupFS p A = lookupFS p B := by
  simp only [classifyPath]
  split_ifs with h1 h2 h3
  · simp only [Bool.and_eq_true, Bool.not_eq_true'] at h1
    obtain ⟨ha, hb⟩ := h1
    refine iff_of_false (by simp) (fun he => ?_)
    rw [← he, ha] at hb
    simp at hb
  · simp only [Bool.and_eq_true, Bool.not_eq_true'] at h2
    obtain ⟨ha, hb⟩ := h2
    refine iff_of_false (by simp) (fun he => ?_)
    rw [he, hb] at ha
    simp at ha
  · exact iff_of_false (by simp) h3
  · simp only [ne_eq, not_not] at h3
    exact iff_of_true rfl h3

theorem classifyPath_path (A B : FileState) (p : Str) (ch : FileChange)
    (h : classifyPath A B p = some ch) : ch.path = p := by
  simp only [classifyPath] at h
  split_ifs at h <;> (cases h; rfl)

theorem filterMapCongr {α β : Type} (f g : α → Option β) :
    ∀ l : List α, (∀ a ∈ l, f a = g a) → l.filterMap f = l.filterMap g := by
  intro l
  induction l with
  | nil => intro _; rfl
  | cons a rest ih =>
    intro h
    rw [List.filterMap_cons, List.filterMap_cons, h a (List.mem_cons_self a rest),
      ih (fun b hb => h b (List.mem_cons_of_mem a hb))]

theorem detect_paths (A B : FileState) :
    (detectFileChanges A B).map FileChange.path =
      (setDedup (A.map Prod.fst ++ B.map Prod.fst)).filter
        (fun p => decide (lookupFS p A ≠ lookupFS p B)) := by
  show ((setDedup (A.map Prod.fst ++ B.map Prod.fst)).filterMap (classifyPath A B)).map
      FileChange.path = _
  generalize setDedup (A.map Prod.fst ++ B.map Prod.fst) = l
  induction l with
  | nil => rfl
  | cons p rest ih =>
    rw [List.filterMap_cons, List.filter_cons]
    cases hc : classifyPath A B p with
    | none =>
      have he : lookupFS p A = lookupFS p B := (classifyPath_eq_none_iff A B p).mp hc
      simp only [he]
      simpa using ih
    | some ch =>
      have hne : lookupFS p A ≠ lookupFS p B := by
        intro he
        rw [(classifyPath_eq_none_iff A B p).mpr he] at hc
        cases hc
      have hd : (decide (lookupFS p A ≠ lookupFS p B)) = true := decide_eq_true hne
      rw [List.map_cons, classifyPath_path A B p ch hc, ih, hd]
      simp

theorem nodupCountOne (l : List Str) (a : Str)
    (hnd : l.Nodup) (ha : a ∈ l) : l.count a = 1 := by
  induction l with
  | nil => cases ha
  | cons x xs ih =>
    rw [List.count_cons]
    rcases List.mem_cons.mp ha with h | h
    · have hx : a ∉ xs := h ▸ (List.nodup_cons.mp hnd).1
      rw [List.count_eq_zero_of_not_mem hx]
      simp [h]
    · have hax : a ≠ x := fun he => (List.nodup_cons.mp hnd).1 (he ▸ h)
      rw [ih (List.nodup_cons.mp hnd).2 h]
      simp [hax]
      exact fun he => hax he.symm

/-- C2: for any two FileStates the reconciler classifies each path of the
union at most once (the produced path list has no duplicates and stays inside
the union); a path with identical lookups in both is omitted; every other path
of the union appears exactly once, with one of the three statuses. -/
theorem reconciler_totality (A B : FileState) :
    ((detectFileChanges A B).map FileChange.path).Nodup ∧
    (∀ p ∈ (detectFileChanges A B).map FileChange.path,
      p ∈ A.map Prod.fst ++ B.map Prod.fst) ∧
    (∀ (p : Str) (c : Str), lookupFS p A = some c → lookupFS p B = some c →
      p ∉ (detectFileChanges A B).map FileChange.path) ∧
    (∀ p : Str, (p ∈ A.map Prod.fst ∨ p ∈ B.map Prod.fst) →
      lookupFS p A ≠ lookupFS p B →
      ((detectFileChanges A B).map FileChange.path).count p = 1) ∧
    (∀ ch ∈ detectFileChanges A B,
      ch.status = FileStatus.new ∨ ch.status = FileStatus.updated ∨
        ch.status = FileStatus.deleted) := by
  refine ⟨?_, ?_, ?_, ?_, ?_⟩
  · rw [detect_paths]
    exact (setDedup_nodup _).filter _
  · intro p hp
    rw [detect_paths] at hp
    exact (mem_setDedup _ p).mp (List.mem_of_mem_filter hp)
  · intro p c hA hB hp
    rw [detect_paths] at hp
    have := (List.mem_filter.mp hp).2
    rw [hA, hB] at this
    simp at this
  · intro p hmem hne
    rw [detect_paths]
    refine nodupCountOne _ _ ((setDedup_nodup _).filter _) ?_
    refine List.mem_filter.mpr ⟨(mem_setDedup _ p).mpr (List.mem_append.mpr hmem), by
      simpa using hne⟩
  · intro ch _
    rcases ch with ⟨p, st, pc⟩
    cases st
    · exact Or.inl rfl
    · exact Or.inr (Or.inl rfl)
    · exact Or.inr (Or.inr rfl)

/-- C2 witness: the totality statement instantiated at two small concrete
FileStates. -/
theorem reconciler_totality_witness :
    (((detectFileChanges [(str "a", str "x")] [(str "a", str "x"), (str "b", str "y")]).map
        FileChange.path).Nodup) ∧
    (str "a") ∉ ((detectFileChanges [(str "a", str "x")]
        [(str "a", str "x"), (str "b", str "y")]).map FileChange.path) ∧
    ((detectFileChanges [(str "a", str "x")] [(str "a", str "x"), (str "b", str "y")]).map
        FileChange.path).count (str "b") = 1 := by
  refine ⟨(reconciler_totality _ _).1, ?_, ?_⟩
  · exact (reconciler_totality _ _).2.2.1 (str "a") (str "x") (by decide) (by decide)
  · exact (reconciler_totality _ _).2.2.2.1 (str "b") (Or.inr (by decide)) (by decide)

/-- C3 counterexample: a path whose previous content is the empty string is
classified `updated`, not `deleted`, by `diff(A, {})` (and a path whose new
content is empty is classified `updated`, not `new`, by `diff({}, B)`) — the
empty string is falsy in the reconciler's guards. -/
theorem reconciler_deletion_cex :
    detectFileChanges [(str "a", [])] [] = [⟨str "a", FileStatus.updated, some []⟩] ∧
    detectFileChanges [] [(str "a", [])] = [⟨str "a", FileStatus.updated, none⟩] := by
  decide

/-- C3 (amended): provided every content string is non-empty, `diff(A, {})`
classifies every path of `A` as `deleted` carrying its previous content, and
`diff({}, B)` classifies every path of `B` as `new`. -/
theorem reconciler_deletion_amended (A B : FileState)
    (hAnd : (A.map Prod.fst).Nodup) (hA : ∀ kv ∈ A, kv.2 ≠ ([] : Str))
    (hBnd : (B.map Prod.fst).Nodup) (hB : ∀ kv ∈ B, kv.2 ≠ ([] : Str)) :
    detectFileChanges A [] = A.map (fun kv => ⟨kv.1, FileStatus.deleted, some kv.2⟩) ∧
    detectFileChanges [] B = B.map (fun kv => ⟨kv.1, FileStatus.new, none⟩) := by
  constructor
  · show (setDedup (A.map Prod.fst ++ ([] : FileState).map Prod.fst)).filterMap
        (classifyPath A []) = _
    rw [show (([] : FileState).map Prod.fst) = [] from rfl, List.append_nil,
      setDedup_eq_self _ hAnd]
    induction A with
    | nil => rfl
    | cons kv rest ih =>
      rw [List.map_cons, List.filterMap_cons]
      have hself : lookupFS kv.1 (kv :: rest) = some kv.2 := by simp [lookupFS]
      have hcl : classifyPath (kv :: rest) [] kv.1 =
          some ⟨kv.1, FileStatus.deleted, some kv.2⟩ := by
        have ht : truthyS (some kv.2) = true := by
          simp [truthyS, List.isEmpty_iff, hA kv (List.mem_cons_self _ _)]
        have hnil : lookupFS kv.1 ([] : FileState) = none := rfl
        simp only [classifyPath, hself, hnil, ht]
        rfl
      rw [hcl]
      rw [List.map_cons] at hAnd
      have hcongr : ∀ p ∈ rest.map Prod.fst,
          classifyPath (kv :: rest) [] p = classifyPath rest [] p := by
        intro p hp
        have hne : kv.1 ≠ p := fun he => (List.nodup_cons.mp hAnd).1 (he ▸ hp)
        simp only [classifyPath, lookupFS_cons_ne p kv rest hne]
      rw [filterMapCongr _ _ _ hcongr,
        ih (List.nodup_cons.mp hAnd).2 (fun kv2 h2 => hA kv2 (List.mem_cons_of_mem _ h2))]
      rfl
  · show (setDedup (([] : FileState).map Prod.fst ++ B.map Prod.fst)).filterMap
        (classifyPath [] B) = _
    rw [show (([] : FileState).map Prod.fst) = [] from rfl, List.nil_append,
      setDedup_eq_self _ hBnd]
    induction B with
    | nil => rfl
    | cons kv rest ih =>
      rw [List.map_cons, List.filterMap_cons]
      have hself : lookupFS kv.1 (kv :: rest) = some kv.2 := by simp [lookupFS]
      have hcl : classifyPath [] (kv :: rest) kv.1 =
          some ⟨kv.1, FileStatus.new, none⟩ := by
        have ht : truthyS (some kv.2) = true := by
          simp [truthyS, List.isEmpty_iff, hB kv (List.mem_cons_self _ _)]
        have hnil : lookupFS kv.1 ([] : FileState) = none := rfl
        simp only [classifyPath, hself, hnil, ht]
        rfl
      rw [hcl]
      rw [List.map_cons] at hBnd
      have hcongr : ∀ p ∈ rest.map Prod.fst,
          classifyPath [] (kv :: rest) p = classifyPath [] rest p := by
        intro p hp
        have hne : kv.1 ≠ p := fun he => (List.nodup_cons.mp hBnd).1 (he ▸ hp)
        simp only [classifyPath, lookupFS_cons_ne p kv rest hne]
      rw [filterMapCongr _ _ _ hcongr,
        ih (List.nodup_cons.mp hBnd).2 (fun kv2 h2 => hB kv2 (List.mem_cons_of_mem _ h2))]
      rfl

/-- C3 witness: the amended deletion/new symmetry at concrete FileStates with
non-empty contents. -/
theorem reconciler_deletion_amended_witness :
    detectFileChanges [(str "a", str "x"), (str "b", str "y")] [] =
      [⟨str "a", FileStatus.deleted, some (str "x")⟩,
       ⟨str "b", FileStatus.deleted, some (str "y")⟩] ∧
    detectFileChanges [] [(str "c", str "z")] = [⟨str "c", FileStatus.new, none⟩] := by
  have h := reconciler_deletion_amended
    [(str "a", str "x"), (str "b", str "y")] [(str "c", str "z")]
    (by decide) (by decide) (by decide) (by decide)
  exact ⟨h.1.trans (by decide), h.2.trans (by decide)⟩

/-- C8 witness: the three guard outcomes at concrete requests. -/
theorem post_guard_statuses_witness :
    postGuards ⟨Except.ok (), some (str "k"), none⟩
        ⟨none, none, none, false, str "anonymous", none, false⟩ =
      .respond 400 (str "Prompt or uploaded files required") ∧
    postGuards ⟨Except.ok (), none, none⟩
        ⟨some (str "make an app"), none, none, false, str "anonymous", none, false⟩ =
      .respond 500 (str "Missing API key") ∧
    postGuards ⟨Except.ok (), some (str "k"), none⟩
        ⟨some (str "tweak it"), none, none, false, str "u1", some (str "c1"), true⟩ =
      .respond 404 (str "Conversation not found") := by
  refine ⟨?_, ?_, ?_⟩
  · exact (post_guard_statuses _ _ rfl).1 rfl (Or.inl rfl)
  · exact (post_guard_statuses _ _ rfl).2.1 (Or.inl (by decide)) rfl
  · exact (post_guard_statuses _ _ rfl).2.2 (Or.inl (by decide)) (by decide) rfl
      ⟨str "c1", rfl, by decide⟩ rfl

theorem countP_map_zero {α : Type} (p : SEvent → Bool) (f : α → SEvent) (l : List α)
    (h : ∀ d : α, p (f d) = false) : List.countP p (l.map f) = 0 := by
  refine List.countP_eq_zero.mpr ?_
  intro e he
  rcases List.mem_map.mp he with ⟨d, _, rfl⟩
  simp [h d]

theorem countP_comp_zero {α : Type} (p : SEvent → Bool) (f : α → SEvent) (l : List α)
    (h : ∀ d : α, p (f d) = false) : List.countP (p ∘ f) l = 0 := by
  refine List.countP_eq_zero.mpr ?_
  intro d _
  simp [Function.comp, h d]

/-- C5: every run of the streaming generation task emits exactly one terminal
event; it is a `complete` (carrying the persisted conversation's id) exactly
when the fetch, the extraction and the persistence write all succeeded, and an
`error` otherwise — in particular a persistence failure after successful
extraction yields `error` and no `complete`. -/
theorem streaming_single_terminal (env : StreamingEnv) (iter : Bool)
    (ef cf : Option FileState) :
    ((runStreamingTask env iter ef cf).countP (fun e => isTerminalEvt e)) = 1 ∧
    ((runStreamingTask env iter ef cf).countP (fun e => isCompleteEvt e)) =
      (if streamStagesOk env then 1 else 0) ∧
    ((runStreamingTask env iter ef cf).countP (fun e => isErrorEvt e)) =
      (if streamStagesOk env then 0 else 1) ∧
    (∀ (cid : Str) (ch : List FileChange) (ff : FileState) (ii : Bool),
      SEvent.complete cid ch ff ii ∈ runStreamingTask env iter ef cf →
      env.saveResult = Except.ok cid) := by
  obtain ⟨upstream, save⟩ := env
  cases upstream with
  | failure msg =>
    refine ⟨?_, ?_, ?_, ?_⟩ <;>
      simp [runStreamingTask, streamStagesOk, isTerminalEvt, isCompleteEvt, isErrorEvt,
        List.countP_cons]
  | noBody =>
    refine ⟨?_, ?_, ?_, ?_⟩ <;>
      simp [runStreamingTask, streamStagesOk, isTerminalEvt, isCompleteEvt, isErrorEvt,
        List.countP_cons]
  | success chunks =>
    cases hE : extractAndParseJSON ((chunks.flatMap chunkDeltas).foldl (· ++ ·) []) with
    | error msg =>
      refine ⟨?_, ?_, ?_, ?_⟩ <;>
        simp [runStreamingTask, streamStagesOk, hE, List.countP_cons, List.countP_append,
          isTerminalEvt, isCompleteEvt, isErrorEvt, countP_map_zero, countP_comp_zero, Function.comp, List.countP_false]
    | ok newFiles =>
      cases save with
      | error msg =>
        refine ⟨?_, ?_, ?_, ?_⟩ <;>
          simp [runStreamingTask, streamStagesOk, hE, List.countP_cons, List.countP_append,
            isTerminalEvt, isCompleteEvt, isErrorEvt, countP_map_zero, countP_comp_zero, Function.comp, List.countP_false]
      | ok cid =>
        refine ⟨?_, ?_, ?_, ?_⟩ <;>
          simp [runStreamingTask, streamStagesOk, hE, List.countP_cons, List.countP_append,
            isTerminalEvt, isCompleteEvt, isErrorEvt, countP_map_zero, countP_comp_zero, Function.comp, List.countP_false]
        exact fun cid2 ch ff => ⟨fun h _ _ _ => h.symm, fun h _ _ _ => h.symm⟩

/-- C5 witness: the conjuncts instantiated at a concrete environment that
succeeds end to end (and, via the last conjunct, the id carried by `complete`
is the persisted id). -/
theorem streaming_single_terminal_witness :
    ((runStreamingTask ⟨UpstreamResult.success [], Except.ok (str "id1")⟩ false
        (some [(str "a", str "x")]) none).countP (fun e => isTerminalEvt e)) = 1 := by
  exact (streaming_single_terminal ⟨UpstreamResult.success [], Except.ok (str "id1")⟩
    false (some [(str "a", str "x")]) none).1

/-! Scheduler run analysis (C9): canonical reachable states. -/

theorem objInsert_not_mem (m : FileState) (k : Str) (v : Str)
    (h : k ∉ m.map Prod.fst) : objInsert m k v = m ++ [(k, v)] := by
  induction m with
  | nil => rfl
  | cons kv rest ih =>
    have hk : kv.1 ≠ k := fun he => h (by simp [he])
    simp only [objInsert, hk, if_false]
    rw [ih (fun hm => h (by simp [hm]))]
    simp

theorem objInsert_append_last (A : FileState) (k : Str) (v v2 : Str)
    (h : k ∉ A.map Prod.fst) : objInsert (A ++ [(k, v)]) k v2 = A ++ [(k, v2)] := by
  induction A with
  | nil => simp [objInsert]
  | cons kv rest ih =>
    have hk : kv.1 ≠ k := fun he => h (by simp [he])
    simp only [List.cons_append, objInsert, hk, if_false, List.append_eq]
    rw [ih (fun hm => h (by simp [hm]))]

theorem getD_map_fst (files : FileState) (i : Nat) (hi : i < files.length) :
    ∃ kv : Str × Str, files.getD i ([], []) = kv ∧ nameAt files i = kv.1 ∧
      sndAt files i = kv.2 ∧ kv ∈ files := by
  refine ⟨files.getD i ([], []), rfl, ?_, ?_, ?_⟩
  · simp [nameAt, List.getD_eq_getElem?_getD, List.getElem?_map,
      List.getElem?_eq_getElem hi]
  · simp [sndAt, List.getD_eq_getElem?_getD, List.getElem?_map,
      List.getElem?_eq_getElem hi]
  · simp [List.getD_eq_getElem?_getD, List.getElem?_eq_getElem hi]

theorem lookup_nameAt (files : FileState) (hnd : (files.map Prod.fst).Nodup)
    (i : Nat) (hi : i < files.length) :
    lookupFS (nameAt files i) files = some (sndAt files i) := by
  obtain ⟨kv, hkv, hn, hs, hmem⟩ := getD_map_fst files i hi
  rw [hn, hs]
  exact lookupFS_of_mem_nodup files hnd kv.1 kv.2 (by simpa using hmem)

theorem nameAt_not_mem_take (files : FileState) (hnd : (files.map Prod.fst).Nodup)
    (i : Nat) (hi : i < files.length) :
    nameAt files i ∉ (files.take i).map Prod.fst := by
  intro hmem
  rw [List.map_take] at hmem
  obtain ⟨j, hj, hje⟩ := List.getElem_of_mem hmem
  have hjlen : j < i := lt_of_lt_of_le hj (by simp [List.length_take])
  have hjn : j < (files.map Prod.fst).length := by
    simp only [List.length_map]
    omega
  have hin : i < (files.map Prod.fst).length := by simp [List.length_map, hi]
  rw [List.getElem_take] at hje
  have hni : nameAt files i = (files.map Prod.fst)[i] := by
    simp [nameAt, List.getD_eq_getElem?_getD, List.getElem?_eq_getElem hin]
  rw [hni] at hje
  have := List.Nodup.getElem_inj_iff hnd |>.mp hje
  omega

theorem nameAt_not_mem_keep_take (files : FileState) (hnd : (files.map Prod.fst).Nodup)
    (i : Nat) (hi : i < files.length) :
    nameAt files i ∉ (keepNonEmpty (files.take i)).map Prod.fst := by
  intro hmem
  refine nameAt_not_mem_take files hnd i hi ?_
  obtain ⟨kv, hkv, he⟩ := List.mem_map.mp hmem
  exact he ▸ List.mem_map.mpr ⟨kv, List.mem_of_mem_filter hkv, rfl⟩

theorem canonDisplayed_insert (files : FileState) (hnd : (files.map Prod.fst).Nodup)
    (i c : Nat) (hi : i < files.length) :
    objInsert (canonDisplayed files i c) (nameAt files i) ((sndAt files i).take (c + 1)) =
      canonDisplayed files i (c + 1) := by
  cases c with
  | zero =>
    have h0 : canonDisplayed files i 0 = keepNonEmpty (files.take i) := by
      simp [canonDisplayed]
    have h1 : canonDisplayed files i 1 =
        keepNonEmpty (files.take i) ++ [(nameAt files i, (sndAt files i).take 1)] := by
      simp [canonDisplayed]
    rw [h0, h1, objInsert_not_mem _ _ _ (nameAt_not_mem_keep_take files hnd i hi)]
  | succ c0 =>
    have h2 : canonDisplayed files i (c0 + 1) =
        keepNonEmpty (files.take i) ++ [(nameAt files i, (sndAt files i).take (c0 + 1))] := by
      simp [canonDisplayed]
    have h3 : canonDisplayed files i (c0 + 1 + 1) =
        keepNonEmpty (files.take i) ++
          [(nameAt files i, (sndAt files i).take (c0 + 1 + 1))] := by
      simp [canonDisplayed]
    rw [h2, h3]
    exact objInsert_append_last _ _ _ _ (nameAt_not_mem_keep_take files hnd i hi)

theorem canonDisplayed_full (files : FileState) (i : Nat) (hi : i < files.length) :
    canonDisplayed files i (sndAt files i).length = keepNonEmpty (files.take (i + 1)) := by
  obtain ⟨kv, hkv, hn, hs, hmem⟩ := getD_map_fst files i hi
  have htake : files.take (i + 1) = files.take i ++ [kv] := by
    rw [List.take_succ]
    have : files[i]? = some kv := by
      rw [List.getElem?_eq_getElem hi]
      rw [List.getD_eq_getElem?_getD, List.getElem?_eq_getElem hi] at hkv
      simpa using hkv
    rw [this]
    rfl
  rw [htake]
  simp only [keepNonEmpty, List.filter_append, canonDisplayed]
  cases hce : kv.2.isEmpty
  · -- non-empty content: the current file keeps its (full) entry
    have hlen : (sndAt files i).length ≠ 0 := by
      rw [hs]
      simpa [List.isEmpty_iff, List.length_eq_zero] using hce
    rw [if_neg hlen, hn, hs, List.take_length]
    simp [List.filter_cons, hce, keepNonEmpty]
  · -- empty content: no entry for the current file on either side
    have hlen : (sndAt files i).length = 0 := by
      rw [hs]
      simpa [List.isEmpty_iff] using hce
    rw [hlen, if_pos rfl]
    simp [List.filter_cons, hce, keepNonEmpty]

theorem schedStep_canon_tick (files : FileState) (hnd : (files.map Prod.fst).Nodup)
    (i c : Nat) (hi : i < files.length) (hc : c < (sndAt files i).length) :
    schedStep files (canonState files i c) = (canonState files i (c + 1), SchedAction.tick) := by
  have hne0 : ¬ ((files.map Prod.fst).length = 0) := by
    simp only [List.length_map]
    omega
  have hlook := lookup_nameAt files hnd i hi
  rw [nameAt] at hlook
  have hins := canonDisplayed_insert files hnd i c hi
  rw [nameAt] at hins
  simp only [schedStep, canonState, hlook, Option.getD_some, if_neg hne0, if_pos hc, hins]

theorem schedStep_canon_advance (files : FileState) (hnd : (files.map Prod.fst).Nodup)
    (i : Nat) (hi1 : i + 1 < files.length) :
    schedStep files (canonState files i (sndAt files i).length) =
      (canonState files (i + 1) 0, SchedAction.advance) := by
  have hi : i < files.length := Nat.lt_of_succ_lt hi1
  have hne0 : ¬ ((files.map Prod.fst).length = 0) := by
    simp only [List.length_map]
    omega
  have hlook := lookup_nameAt files hnd i hi
  rw [nameAt] at hlook
  have hnc : ¬ ((sndAt files i).length < (sndAt files i).length) := lt_irrefl _
  have hlt : i < (files.map Prod.fst).length - 1 := by
    simp only [List.length_map]
    omega
  simp only [schedStep, canonState, hlook, Option.getD_some, if_neg hne0, if_neg hnc,
    if_pos hlt]
  rw [canonDisplayed_full files i hi]
  simp [canonDisplayed]

theorem schedStep_canon_complete (files : FileState) (hnd : (files.map Prod.fst).Nodup)
    (hne : files ≠ []) :
    schedStep files
        (canonState files (files.length - 1) (sndAt files (files.length - 1)).length) =
      (doneState files, SchedAction.complete) := by
  have hlen0 : 0 < files.length := List.length_pos.mpr hne
  have hi : files.length - 1 < files.length := by omega
  have hne0 : ¬ ((files.map Prod.fst).length = 0) := by
    simp only [List.length_map]
    omega
  have hlook := lookup_nameAt files hnd (files.length - 1) hi
  rw [nameAt] at hlook
  have hnc : ¬ ((sndAt files (files.length - 1)).length <
      (sndAt files (files.length - 1)).length) := lt_irrefl _
  have hnlt : ¬ (files.length - 1 < (files.map Prod.fst).length - 1) := by
    simp only [List.length_map]
    omega
  simp only [schedStep, canonState, hlook, Option.getD_some, if_neg hne0, if_neg hnc,
    if_neg hnlt]
  rw [canonDisplayed_full files _ hi]
  have h1 : files.length - 1 + 1 = files.length := by omega
  rw [h1, List.take_length]
  rfl

theorem schedStep_done (files : FileState) (hnd : (files.map Prod.fst).Nodup)
    (hne : files ≠ []) :
    schedStep files (doneState files) = (doneState files, SchedAction.idle) := by
  have hlen0 : 0 < files.length := List.length_pos.mpr hne
  have hi : files.length - 1 < files.length := by omega
  have hne0 : ¬ ((files.map Prod.fst).length = 0) := by
    simp only [List.length_map]
    omega
  have hlook := lookup_nameAt files hnd (files.length - 1) hi
  rw [nameAt] at hlook
  have hnc : ¬ ((sndAt files (files.length - 1)).length <
      (sndAt files (files.length - 1)).length) := lt_irrefl _
  have hnlt : ¬ (files.length - 1 < (files.map Prod.fst).length - 1) := by
    simp only [List.length_map]
    omega
  simp only [schedStep, doneState, hlook, Option.getD_some, if_neg hne0, if_neg hnc,
    if_neg hnlt]
  rfl

theorem schedRunFrom_add (files : FileState) (s : SchedState) (m : Nat) :
    ∀ n, schedRunFrom files s (m + n) = schedRunFrom files (schedRunFrom files s m) n := by
  intro n
  induction n with
  | zero => rfl
  | succ k ih =>
    show (schedStep files (schedRunFrom files s (m + k))).1 = _
    rw [ih]
    rfl

theorem runFrom_tick_seg (files : FileState) (hnd : (files.map Prod.fst).Nodup)
    (i : Nat) (hi : i < files.length) :
    ∀ (d c : Nat), c + d ≤ (sndAt files i).length →
      schedRunFrom files (canonState files i c) d = canonState files i (c + d) := by
  intro d
  induction d with
  | zero => intro c _; rfl
  | succ k ih =>
    intro c h
    show (schedStep files (schedRunFrom files (canonState files i c) k)).1 = _
    rw [ih c (by omega), schedStep_canon_tick files hnd i (c + k) hi (by omega)]
    rfl

theorem runFrom_through_file (files : FileState) (hnd : (files.map Prod.fst).Nodup)
    (i : Nat) (hi1 : i + 1 < files.length) :
    schedRunFrom files (canonState files i 0) ((sndAt files i).length + 1) =
      canonState files (i + 1) 0 := by
  show (schedStep files (schedRunFrom files (canonState files i 0)
    (sndAt files i).length)).1 = _
  have hseg := runFrom_tick_seg files hnd i (Nat.lt_of_succ_lt hi1)
    (sndAt files i).length 0 (by omega)
  rw [Nat.zero_add] at hseg
  rw [hseg, schedStep_canon_advance files hnd i hi1]

theorem runFrom_through_last (files : FileState) (hnd : (files.map Prod.fst).Nodup)
    (hne : files ≠ []) :
    schedRunFrom files (canonState files (files.length - 1) 0)
        ((sndAt files (files.length - 1)).length + 1) =
      doneState files := by
  have hi : files.length - 1 < files.length := by
    have := List.length_pos.mpr hne
    omega
  show (schedStep files (schedRunFrom files (canonState files (files.length - 1) 0)
    (sndAt files (files.length - 1)).length)).1 = _
  have hseg := runFrom_tick_seg files hnd (files.length - 1) hi
    (sndAt files (files.length - 1)).length 0 (by omega)
  rw [Nat.zero_add] at hseg
  rw [hseg, schedStep_canon_complete files hnd hne]

theorem runFrom_done_idle (files : FileState) (hnd : (files.map Prod.fst).Nodup)
    (hne : files ≠ []) :
    ∀ d, schedRunFrom files (doneState files) d = doneState files := by
  intro d
  induction d with
  | zero => rfl
  | succ k ih =>
    show (schedStep files (schedRunFrom files (doneState files) k)).1 = _
    rw [ih, schedStep_done files hnd hne]

theorem take_succ_eq (files : FileState) (i : Nat) (hi : i < files.length) :
    files.take (i + 1) = files.take i ++ [files.getD i ([], [])] := by
  rw [List.take_succ, List.getElem?_eq_getElem hi]
  rw [List.getD_eq_getElem?_getD, List.getElem?_eq_getElem hi]
  rfl

theorem stepsBefore_zero (files : FileState) : stepsBefore files 0 = 0 := rfl

theorem stepsBefore_succ (files : FileState) (i : Nat) (hi : i < files.length) :
    stepsBefore files (i + 1) = stepsBefore files i + ((sndAt files i).length + 1) := by
  obtain ⟨kv, hkv, hn, hs, hmem⟩ := getD_map_fst files i hi
  rw [stepsBefore, take_succ_eq files i hi, hkv, List.map_append, List.sum_append]
  rw [stepsBefore, hs]
  simp

theorem sumLens (files : FileState) :
    ((files.map (fun kv => kv.2.length + 1)).sum) = totalLen files + files.length := by
  induction files with
  | nil => rfl
  | cons kv rest ih =>
    rw [List.map_cons, List.sum_cons, ih]
    show kv.2.length + 1 + (totalLen rest + rest.length) = totalLen (kv :: rest) + _
    rw [show totalLen (kv :: rest) = kv.2.length + totalLen rest from rfl]
    simp [List.length_cons]
    omega

theorem stepsBefore_length (files : FileState) :
    stepsBefore files files.length = totalLen files + files.length := by
  rw [stepsBefore, List.take_length, sumLens]

theorem totalSteps_eq (files : FileState) (hne : files ≠ []) :
    totalSteps files =
      stepsBefore files (files.length - 1) + ((sndAt files (files.length - 1)).length + 1) := by
  have hlen0 : 0 < files.length := List.length_pos.mpr hne
  have h1 : files.length - 1 + 1 = files.length := by omega
  have := stepsBefore_succ files (files.length - 1) (by omega)
  rw [h1] at this
  rw [totalSteps, ← stepsBefore_length, this]

theorem schedInit_canon (files : FileState) : schedInit = canonState files 0 0 := rfl

theorem schedRun_at (files : FileState) (hnd : (files.map Prod.fst).Nodup) :
    ∀ i : Nat, i < files.length → ∀ c, c ≤ (sndAt files i).length →
      schedRun files (stepsBefore files i + c) = canonState files i c := by
  intro i
  induction i with
  | zero =>
    intro h0 c hc
    have hseg := runFrom_tick_seg files hnd 0 h0 c 0 (by omega)
    rw [Nat.zero_add] at hseg
    show schedRunFrom files schedInit (stepsBefore files 0 + c) = _
    rw [stepsBefore_zero, Nat.zero_add, schedInit_canon files, hseg]
  | succ i ih =>
    intro hi1 c hc
    have hi : i < files.length := Nat.lt_of_succ_lt hi1
    have h0 := ih hi 0 (Nat.zero_le _)
    rw [Nat.add_zero] at h0
    rw [stepsBefore_succ files i hi]
    show schedRunFrom files schedInit
      (stepsBefore files i + ((sndAt files i).length + 1) + c) = _
    rw [show stepsBefore files i + ((sndAt files i).length + 1) + c =
      stepsBefore files i + (((sndAt files i).length + 1) + c) from by omega]
    rw [schedRunFrom_add]
    rw [show schedRunFrom files schedInit (stepsBefore files i) = canonState files i 0
      from h0]
    rw [schedRunFrom_add]
    rw [runFrom_through_file files hnd i hi1]
    have hseg := runFrom_tick_seg files hnd (i + 1) hi1 c 0 (by omega)
    rw [Nat.zero_add] at hseg
    exact hseg

theorem schedRun_total (files : FileState) (hnd : (files.map Prod.fst).Nodup)
    (hne : files ≠ []) :
    schedRun files (totalSteps files) = doneState files := by
  have hlen0 : 0 < files.length := List.length_pos.mpr hne
  have h0 := schedRun_at files hnd (files.length - 1) (by omega) 0 (Nat.zero_le _)
  rw [Nat.add_zero] at h0
  rw [totalSteps_eq files hne]
  show schedRunFrom files schedInit
    (stepsBefore files (files.length - 1) + ((sndAt files (files.length - 1)).length + 1)) = _
  rw [schedRunFrom_add]
  rw [show schedRunFrom files schedInit (stepsBefore files (files.length - 1)) =
    canonState files (files.length - 1) 0 from h0]
  exact runFrom_through_last files hnd hne

theorem schedRun_stable (files : FileState) (hnd : (files.map Prod.fst).Nodup)
    (hne : files ≠ []) :
    ∀ m, totalSteps files ≤ m → schedRun files m = doneState files := by
  intro m hm
  obtain ⟨d, rfl⟩ : ∃ d, m = totalSteps files + d := ⟨m - totalSteps files, by omega⟩
  show schedRunFrom files schedInit (totalSteps files + d) = _
  rw [schedRunFrom_add]
  rw [show schedRunFrom files schedInit (totalSteps files) = doneState files from
    schedRun_total files hnd hne]
  exact runFrom_done_idle files hnd hne d

theorem stepsCover (files : FileState) :
    ∀ j : Nat, j ≤ files.length → ∀ m, m < stepsBefore files j →
      ∃ i c, i < j ∧ c ≤ (sndAt files i).length ∧ m = stepsBefore files i + c := by
  intro j
  induction j with
  | zero =>
    intro _ m hm
    rw [stepsBefore_zero] at hm
    omega
  | succ j ih =>
    intro hj m hm
    have hjlt : j < files.length := hj
    by_cases hcase : m < stepsBefore files j
    · obtain ⟨i, c, h1, h2, h3⟩ := ih (le_of_lt hjlt) m hcase
      exact ⟨i, c, Nat.lt_succ_of_lt h1, h2, h3⟩
    · push_neg at hcase
      rw [stepsBefore_succ files j hjlt] at hm
      exact ⟨j, m - stepsBefore files j, Nat.lt_succ_self j, by omega, by omega⟩

theorem totalLen_append (a b : FileState) :
    totalLen (a ++ b) = totalLen a + totalLen b := by
  induction a with
  | nil =>
    rw [List.nil_append]
    show totalLen b = 0 + totalLen b
    omega
  | cons kv rest ih =>
    show kv.2.length + totalLen (rest ++ b) = kv.2.length + totalLen rest + totalLen b
    rw [ih]
    omega

theorem totalLen_keepNonEmpty (files : FileState) :
    totalLen (keepNonEmpty files) = totalLen files := by
  induction files with
  | nil => rfl
  | cons kv rest ih =>
    simp only [keepNonEmpty, List.filter_cons]
    cases hce : kv.2.isEmpty
    · show kv.2.length + totalLen (keepNonEmpty rest) = kv.2.length + totalLen rest
      rw [ih]
    · have h0 : kv.2.length = 0 := by
        simpa [List.isEmpty_iff] using hce
      show totalLen (keepNonEmpty rest) = kv.2.length + totalLen rest
      rw [ih, h0, Nat.zero_add]

theorem revealedTotal_canon (files : FileState) (i c : Nat)
    (hc : c ≤ (sndAt files i).length) :
    revealedTotal (canonState files i c) =
      totalLen (keepNonEmpty (files.take i)) + c := by
  cases c with
  | zero =>
    show totalLen (canonDisplayed files i 0) = _
    simp [canonDisplayed, totalLen_append]
  | succ c0 =>
    show totalLen (canonDisplayed files i (c0 + 1)) = _
    have h1 : canonDisplayed files i (c0 + 1) =
        keepNonEmpty (files.take i) ++
          [(nameAt files i, (sndAt files i).take (c0 + 1))] := by
      simp [canonDisplayed]
    rw [h1, totalLen_append]
    show _ + ((sndAt files i).take (c0 + 1)).length + 0 = _
    rw [List.length_take]
    omega

theorem schedStep_at_canon_cases (files : FileState) (hnd : (files.map Prod.fst).Nodup)
    (hne : files ≠ []) (i c : Nat) (hi : i < files.length)
    (hc : c ≤ (sndAt files i).length) :
    (c < (sndAt files i).length ∧
      schedStep files (canonState files i c) =
        (canonState files i (c + 1), SchedAction.tick)) ∨
    (c = (sndAt files i).length ∧ i + 1 < files.length ∧
      schedStep files (canonState files i c) =
        (canonState files (i + 1) 0, SchedAction.advance)) ∨
    (c = (sndAt files i).length ∧ i = files.length - 1 ∧
      schedStep files (canonState files i c) = (doneState files, SchedAction.complete)) := by
  rcases Nat.lt_or_ge c (sndAt files i).length with hlt | hge
  · exact Or.inl ⟨hlt, schedStep_canon_tick files hnd i c hi hlt⟩
  · have hceq : c = (sndAt files i).length := le_antisymm hc hge
    subst hceq
    rcases Nat.lt_or_ge (i + 1) files.length with hi1 | hge2
    · exact Or.inr (Or.inl ⟨rfl, hi1, schedStep_canon_advance files hnd i hi1⟩)
    · have hieq : i = files.length - 1 := by omega
      subst hieq
      exact Or.inr (Or.inr ⟨rfl, rfl, schedStep_canon_complete files hnd hne⟩)

theorem schedRun_step_facts (files : FileState) (hnd : (files.map Prod.fst).Nodup)
    (hne : files ≠ []) (m : Nat) :
    (schedAction files m = SchedAction.tick →
      revealedTotal (schedRun files (m + 1)) = revealedTotal (schedRun files m) + 1 ∧
      (schedRun files (m + 1)).currentFileIndex = (schedRun files m).currentFileIndex) ∧
    (schedAction files m ≠ SchedAction.tick →
      revealedTotal (schedRun files (m + 1)) = revealedTotal (schedRun files m)) ∧
    (schedAction files m = SchedAction.advance →
      (schedRun files (m + 1)).currentFileIndex = (schedRun files m).currentFileIndex + 1 ∧
      (schedRun files (m + 1)).currentCharIndex = 0 ∧
      (schedRun files m).currentCharIndex =
        ((lookupFS ((files.map Prod.fst).getD (schedRun files m).currentFileIndex [])
          files).getD []).length) := by
  have hstep1 : schedRun files (m + 1) = (schedStep files (schedRun files m)).1 := rfl
  have hact : schedAction files m = (schedStep files (schedRun files m)).2 := rfl
  by_cases hm : m < totalSteps files
  · have hcov := stepsCover files files.length (le_refl _) m (by
      rw [stepsBefore_length]
      exact hm)
    obtain ⟨i, c, hi', hc, hmeq⟩ := hcov
    have hrun : schedRun files m = canonState files i c := by
      rw [hmeq]
      exact schedRun_at files hnd i hi' c hc
    rcases schedStep_at_canon_cases files hnd hne i c hi' hc with
      ⟨hlt, hstep⟩ | ⟨hceq, hi1, hstep⟩ | ⟨hceq, hieq, hstep⟩
    · -- tick step
      have hA : schedAction files m = SchedAction.tick := by
        rw [hact, hrun, hstep]
      have hS : schedRun files (m + 1) = canonState files i (c + 1) := by
        rw [hstep1, hrun, hstep]
      refine ⟨fun _ => ⟨?_, ?_⟩, fun hn => absurd hA hn, fun hadv => ?_⟩
      · rw [hS, hrun, revealedTotal_canon files i (c + 1) (by omega),
          revealedTotal_canon files i c hc]
        omega
      · rw [hS, hrun]
        rfl
      · rw [hA] at hadv
        cases hadv
    · -- advance step
      have hA : schedAction files m = SchedAction.advance := by
        rw [hact, hrun, hstep]
      have hS : schedRun files (m + 1) = canonState files (i + 1) 0 := by
        rw [hstep1, hrun, hstep]
      have hfull : totalLen (keepNonEmpty (files.take (i + 1))) =
          totalLen (keepNonEmpty (files.take i)) + (sndAt files i).length := by
        rw [← canonDisplayed_full files i hi']
        exact revealedTotal_canon files i _ (le_refl _)
      refine ⟨fun ht => ?_, fun _ => ?_, fun _ => ⟨?_, ?_, ?_⟩⟩
      · rw [hA] at ht
        cases ht
      · rw [hS, hrun, revealedTotal_canon files (i + 1) 0 (Nat.zero_le _),
          revealedTotal_canon files i c hc, hceq, hfull]
        omega
      · rw [hS, hrun]
        rfl
      · rw [hS]
        rfl
      · rw [hrun]
        show c = ((lookupFS ((files.map Prod.fst).getD i []) files).getD []).length
        have hlook := lookup_nameAt files hnd i hi'
        rw [nameAt] at hlook
        rw [hlook, Option.getD_some, hceq]
    · -- complete step
      have hA : schedAction files m = SchedAction.complete := by
        rw [hact, hrun, hstep]
      have hS : schedRun files (m + 1) = doneState files := by
        rw [hstep1, hrun, hstep]
      have hNpos : 0 < files.length := List.length_pos.mpr hne
      have hfull : totalLen (keepNonEmpty files) =
          totalLen (keepNonEmpty (files.take i)) + (sndAt files i).length := by
        have h1 := canonDisplayed_full files i hi'
        have h2 : i + 1 = files.length := by omega
        rw [h2, List.take_length] at h1
        rw [← h1]
        exact revealedTotal_canon files i _ (le_refl _)
      refine ⟨fun ht => ?_, fun _ => ?_, fun hadv => ?_⟩
      · rw [hA] at ht
        cases ht
      · rw [hS, hrun, revealedTotal_canon files i c hc, hceq]
        show totalLen (keepNonEmpty files) = _
        rw [hfull]
      · rw [hA] at hadv
        cases hadv
  · -- past completion: the state is stable and the action is idle
    push_neg at hm
    have h1 := schedRun_stable files hnd hne m hm
    have h2 := schedRun_stable files hnd hne (m + 1) (by omega)
    have hA : schedAction files m = SchedAction.idle := by
      rw [hact, h1, schedStep_done files hnd hne]
    refine ⟨fun ht => ?_, fun _ => ?_, fun hadv => ?_⟩
    · rw [hA] at ht
      cases ht
    · rw [h1, h2]
    · rw [hA] at hadv
      cases hadv

theorem revealedTotal_step (files : FileState) (hnd : (files.map Prod.fst).Nodup)
    (hne : files ≠ []) (m : Nat) :
    revealedTotal (schedRun files (m + 1)) =
      revealedTotal (schedRun files m) +
        (if schedAction files m = SchedAction.tick then 1 else 0) := by
  by_cases hA : schedAction files m = SchedAction.tick
  · rw [if_pos hA]
    exact ((schedRun_step_facts files hnd hne m).1 hA).1
  · rw [if_neg hA, (schedRun_step_facts files hnd hne m).2.1 hA]
    omega

theorem tickCount_range (files : FileState) (hnd : (files.map Prod.fst).Nodup)
    (hne : files ≠ []) :
    ∀ n, (List.range n).countP
        (fun m => decide (schedAction files m = SchedAction.tick)) =
      revealedTotal (schedRun files n) := by
  intro n
  induction n with
  | zero => rfl
  | succ k ih =>
    rw [List.range_succ, List.countP_append, ih, revealedTotal_step files hnd hne k]
    by_cases hA : schedAction files k = SchedAction.tick <;>
      simp [List.countP_cons, hA]

/-- C9: for a non-empty file list totalling `L` characters, the scheduler's
completion callback has fired exactly once after `totalSteps = L + N` effect
runs, never before, and never again (the state is then a fixpoint); exactly
`L` of those runs are timer ticks; each tick reveals exactly one additional
character of the current file (a non-tick run reveals none); and an advance
happens exactly when the current file's cursor equals its content length,
moving to the next file with the cursor reset to zero. -/
theorem scheduler_completion (files : FileState) (hne : files ≠ [])
    (hnd : (files.map Prod.fst).Nodup) :
    ((schedRun files (totalSteps files)).completions = 1) ∧
    (∀ m, m < totalSteps files → (schedRun files m).completions = 0) ∧
    (∀ m, totalSteps files ≤ m → schedRun files m = schedRun files (totalSteps files)) ∧
    ((List.range (totalSteps files)).countP
        (fun m => decide (schedAction files m = SchedAction.tick)) = totalLen files) ∧
    (∀ m, schedAction files m = SchedAction.tick →
      revealedTotal (schedRun files (m + 1)) = revealedTotal (schedRun files m) + 1 ∧
      (schedRun files (m + 1)).currentFileIndex = (schedRun files m).currentFileIndex) ∧
    (∀ m, schedAction files m ≠ SchedAction.tick →
      revealedTotal (schedRun files (m + 1)) = revealedTotal (schedRun files m)) ∧
    (∀ m, schedAction files m = SchedAction.advance →
      (schedRun files (m + 1)).currentFileIndex = (schedRun files m).currentFileIndex + 1 ∧
      (schedRun files (m + 1)).currentCharIndex = 0 ∧
      (schedRun files m).currentCharIndex =
        ((lookupFS ((files.map Prod.fst).getD (schedRun files m).currentFileIndex [])
          files).getD []).length) := by
  refine ⟨?_, ?_, ?_, ?_, ?_, ?_, ?_⟩
  · rw [schedRun_total files hnd hne]
    rfl
  · intro m hm
    have hcov := stepsCover files files.length (le_refl _) m (by
      rw [stepsBefore_length]
      exact hm)
    obtain ⟨i, c, hi', hc, hmeq⟩ := hcov
    rw [hmeq, schedRun_at files hnd i hi' c hc]
    rfl
  · intro m hm
    rw [schedRun_stable files hnd hne m hm,
      schedRun_stable files hnd hne (totalSteps files) (le_refl _)]
  · rw [tickCount_range files hnd hne (totalSteps files),
      schedRun_total files hnd hne]
    show totalLen (keepNonEmpty files) = totalLen files
    exact totalLen_keepNonEmpty files
  · intro m hm
    exact (schedRun_step_facts files hnd hne m).1 hm
  · intro m hm
    exact (schedRun_step_facts files hnd hne m).2.1 hm
  · intro m hm
    exact (schedRun_step_facts files hnd hne m).2.2 hm

/-- C9 witness: the scheduler statement at a concrete three-file input with
`L = 5`, so `totalSteps = 8`: one completion at step 8, none at step 7, and
exactly 5 ticks. -/
theorem scheduler_completion_witness :
    (schedRun schedFilesW 8).completions = 1 ∧
    (schedRun schedFilesW 7).completions = 0 ∧
    ((List.range 8).countP
      (fun m => decide (schedAction schedFilesW m = SchedAction.tick)) = 5) := by
  have h := scheduler_completion schedFilesW (by decide) (by decide)
  exact ⟨h.1, h.2.1 7 (by decide), h.2.2.2.1⟩

/-! Extraction roundtrip analysis (C1): strings without a fence marker. -/

theorem noTriple_tail (c : Char) (s : Str) (h : noTriple (c :: s) = true) :
    noTriple s = true := by
  match s, h with
  | [], _ => rfl
  | [x], _ => rfl
  | x1 :: x2 :: rest, h =>
    have := (Bool.and_eq_true _ _).mp h
    exact this.2

theorem noTriple_cons (c : Char) (X : Str) (hX : noTriple X = true)
    (hwin : c ≠ chTick ∨ X.head? ≠ some chTick ∨ X.tail.head? ≠ some chTick) :
    noTriple (c :: X) = true := by
  match X, hX with
  | [], _ => rfl
  | [x], _ => rfl
  | x1 :: x2 :: rest, hX =>
    show (!(c = chTick && x1 = chTick && x2 = chTick) && noTriple (x1 :: x2 :: rest)) = true
    rw [hX, Bool.and_true]
    rcases hwin with h | h | h
    · simp [h]
    · simp at h
      simp [h]
    · simp at h
      simp [h]

theorem noTriple_head_window (c x1 x2 : Char) (rest : Str)
    (h : noTriple (c :: x1 :: x2 :: rest) = true) :
    ¬(c = chTick ∧ x1 = chTick ∧ x2 = chTick) := by
  intro ⟨h1, h2, h3⟩
  have := (Bool.and_eq_true _ _).mp h
  rw [h1, h2, h3] at this
  simp at this

theorem noTriple_append (a : Str) :
    ∀ b : Str, noTriple a = true → noTriple b = true →
      (a.getLast? ≠ some chTick ∨ b.head? ≠ some chTick) → noTriple (a ++ b) = true := by
  induction a with
  | nil => intro b _ hb _; exact hb
  | cons x a' ih =>
    intro b ha hb hcross
    match a' with
    | [] =>
      refine noTriple_cons x b hb ?_
      rcases hcross with h | h
      · simp at h
        exact Or.inl h
      · exact Or.inr (Or.inl h)
    | [y] =>
      show noTriple (x :: ([y] ++ b)) = true
      refine noTriple_cons x ([y] ++ b) ?_ ?_
      · refine ih b rfl hb ?_
        rcases hcross with h | h
        · simp at h
          exact Or.inl (by simp [h])
        · exact Or.inr h
      · rcases hcross with h | h
        · simp at h
          exact Or.inr (Or.inl (by simp [h]))
        · match b with
          | [] => exact Or.inr (Or.inr (by simp))
          | z :: b' => exact Or.inr (Or.inr (by simpa using h))
    | y1 :: y2 :: a'' =>
      show noTriple (x :: ((y1 :: y2 :: a'') ++ b)) = true
      refine noTriple_cons x _ ?_ ?_
      · refine ih b (noTriple_tail x _ ha) hb ?_
        rcases hcross with h | h
        · left
          rw [List.getLast?_cons_cons] at h
          exact (by rw [List.getLast?_cons_cons]; exact h :
            (y1 :: y2 :: a'').getLast? ≠ some chTick)
        · exact Or.inr h
      · have hw := noTriple_head_window x y1 y2 a'' ha
        by_cases h1 : x = chTick
        · by_cases h2 : y1 = chTick
          · right; right
            have h3 : y2 ≠ chTick := fun he => hw ⟨h1, h2, he⟩
            simp [h3]
          · right; left
            simp [h2]
        · exact Or.inl h1

theorem tick3_eq : tick3 = [chTick, chTick, chTick] := by decide

theorem leadMatch_tick3_false (s : Str) (h : noTriple s = true) :
    leadMatch tick3 s = false := by
  rw [tick3_eq]
  match s, h with
  | [], _ => rfl
  | [x], _ => simp [leadMatch]
  | [x, y], _ => simp [leadMatch]
  | x1 :: x2 :: x3 :: rest, h =>
    have hw := noTriple_head_window x1 x2 x3 rest h
    by_cases h1 : x1 = chTick
    · by_cases h2 : x2 = chTick
      · have h3 : chTick ≠ x3 := fun he => hw ⟨h1, h2, he.symm⟩
        simp [leadMatch, h3]
      · have h2' : chTick ≠ x2 := fun he => h2 he.symm
        simp [leadMatch, h2']
    · have h1' : chTick ≠ x1 := fun he => h1 he.symm
      simp [leadMatch, h1']

theorem leadMatch_append_left (p q t : Str) (h : leadMatch (p ++ q) t = true) :
    leadMatch p t = true := by
  induction p generalizing t with
  | nil => rfl
  | cons c p' ih =>
    match t with
    | [] => cases h
    | x :: t' =>
      have := (Bool.and_eq_true _ _).mp h
      show (c = x && leadMatch p' t') = true
      rw [this.1, ih t' this.2]
      rfl

theorem fenceOpen_split : fenceOpen = tick3 ++ str "json" := by decide

theorem splitFirst_none_of_noTriple (pat : Str)
    (hpat : ∀ t, leadMatch pat t = true → leadMatch tick3 t = true) :
    ∀ s, noTriple s = true → splitFirst pat s = none := by
  intro s
  induction s with
  | nil =>
    intro _
    show (if leadMatch pat [] then _ else _) = _
    have : leadMatch pat [] = false := by
      cases hlm : leadMatch pat []
      · rfl
      · have := hpat [] hlm
        rw [tick3_eq] at this
        cases this
    rw [this]
    rfl
  | cons c rest ih =>
    intro h
    have hlm : leadMatch pat (c :: rest) = false := by
      cases hlm : leadMatch pat (c :: rest)
      · rfl
      · have := hpat _ hlm
        rw [leadMatch_tick3_false _ h] at this
        cases this
    show (if leadMatch pat (c :: rest) = true then _ else _) = _
    rw [hlm]
    simp only [Bool.false_eq_true, if_false]
    rw [ih (noTriple_tail c rest h)]

theorem escChar_tick : escChar chTick = [chTick] := by decide

theorem hexDigitChar_ne_tick (k : Nat) (hk : k < 16) : hexDigitChar k ≠ chTick := by
  interval_cases k <;> decide

theorem escChar_ne_nil (c : Char) : escChar c ≠ [] := by
  unfold escChar
  split_ifs <;> simp

theorem escStr_head_tick (s : Str) :
    ((escStr s).head? = some chTick) ↔ (s.head? = some chTick) := by
  match s with
  | [] => simp [escStr]
  | c :: s' =>
    show ((escChar c ++ escStr s').head? = some chTick) ↔ _
    have hhead : (escChar c ++ escStr s').head? = (escChar c).head? := by
      match hec : escChar c with
      | [] => exact absurd hec (escChar_ne_nil c)
      | e :: es => rfl
    rw [hhead]
    simp only [List.head?_cons, Option.some.injEq]
    unfold escChar
    split_ifs with h1 h2 h3 h4 h5 h6 h7 h8
    · subst h1; simp; decide
    · subst h2; simp
    · subst h3; simp; decide
    · subst h4; simp; decide
    · subst h5; simp; decide
    · subst h6; simp; decide
    · subst h7; simp; decide
    · have hc : c ≠ chTick := by
        intro he
        rw [he] at h8
        exact absurd h8 (by decide)
      simp [hc]
      decide
    · simp

theorem escChar_getLast_tick (c : Char) :
    ((escChar c).getLast? = some chTick) ↔ c = chTick := by
  unfold escChar
  split_ifs with h1 h2 h3 h4 h5 h6 h7 h8
  · subst h1; simp
  · subst h2; simp
  · subst h3; simp; decide
  · subst h4; simp; decide
  · subst h5; simp; decide
  · subst h6; simp; decide
  · subst h7; simp; decide
  · have hc : c ≠ chTick := by
      intro he
      rw [he] at h8
      exact absurd h8 (by decide)
    simp [hc]
    exact hexDigitChar_ne_tick _ (Nat.mod_lt _ (by omega))
  · simp

theorem noTriple_escChar (c : Char) : noTriple (escChar c) = true := by
  have hb : (chBackslash = chTick) = False := by decide
  have hu : (('u' : Char) = chTick) = False := by decide
  have h0 : (('0' : Char) = chTick) = False := by decide
  unfold escChar
  split_ifs <;> simp [noTriple, hb, hu, h0]

theorem noTriple_escStr (s : Str) (h : noTriple s = true) :
    noTriple (escStr s) = true := by
  induction s with
  | nil => rfl
  | cons c s' ih =>
    have hs' := noTriple_tail c s' h
    have ihs := ih hs'
    show noTriple (escChar c ++ escStr s') = true
    by_cases hct : c = chTick
    · subst hct
      rw [escChar_tick]
      show noTriple (chTick :: escStr s') = true
      refine noTriple_cons chTick (escStr s') ihs ?_
      by_cases hh : (escStr s').head? = some chTick
      · right; right
        have hsh : s'.head? = some chTick := (escStr_head_tick s').mp hh
        match s', hsh with
        | t :: s'', hsh =>
          have ht : t = chTick := by
            simpa using hsh
          subst ht
          have h3 : s''.head? ≠ some chTick := by
            match s'' with
            | [] => simp
            | u :: s3 =>
              have hw := noTriple_head_window chTick chTick u s3 h
              have hu : u ≠ chTick := fun he => hw ⟨rfl, rfl, he⟩
              simpa using hu
          show (escChar chTick ++ escStr s'').tail.head? ≠ some chTick
          rw [escChar_tick]
          show (escStr s'').head? ≠ some chTick
          intro hcon
          exact h3 ((escStr_head_tick s'').mp hcon)
      · right; left; exact hh
    · refine noTriple_append (escChar c) (escStr s') (noTriple_escChar c) ihs ?_
      left
      intro hl
      exact hct ((escChar_getLast_tick c).mp hl)

theorem noTriple_quoteStr (s : Str) (h : noTriple s = true) :
    noTriple (quoteStr s) = true := by
  show noTriple (chQuote :: (escStr s ++ [chQuote])) = true
  have hinner : noTriple (escStr s ++ [chQuote]) = true := by
    refine noTriple_append _ _ (noTriple_escStr s h) rfl (Or.inr (by decide))
  exact noTriple_cons _ _ hinner (Or.inl (by decide))

theorem quoteStr_head (s : Str) : (quoteStr s).head? = some chQuote := rfl

theorem noTriple_serializeEntry (e : Str × Str) (h1 : noTriple e.1 = true)
    (h2 : noTriple e.2 = true) : noTriple (serializeEntry e) = true := by
  show noTriple (quoteStr e.1 ++ ':' :: quoteStr e.2) = true
  refine noTriple_append _ _ (noTriple_quoteStr _ h1) ?_ (Or.inr (by simp; decide))
  exact noTriple_cons _ _ (noTriple_quoteStr _ h2) (Or.inl (by decide))

theorem serializeEntry_head (e : Str × Str) :
    (serializeEntry e).head? = some chQuote := rfl

theorem serializeBody_head_cons (e : Str × Str) (rest : FileState) :
    (serializeBody (e :: rest)).head? = some chQuote := by
  match rest with
  | [] => rfl
  | r :: rs => rfl

theorem noTriple_serializeBody (F : FileState)
    (h : ∀ kv ∈ F, noTriple kv.1 = true ∧ noTriple kv.2 = true) :
    noTriple (serializeBody F) = true := by
  induction F with
  | nil => rfl
  | cons e rest ih =>
    match rest with
    | [] =>
      exact noTriple_serializeEntry e (h e (List.mem_cons_self _ _)).1
        (h e (List.mem_cons_self _ _)).2
    | r2 :: rest2 =>
      show noTriple (serializeEntry e ++ ',' :: serializeBody (r2 :: rest2)) = true
      have he := h e (List.mem_cons_self _ _)
      refine noTriple_append _ _ (noTriple_serializeEntry e he.1 he.2) ?_
        (Or.inr (by simp; decide))
      refine noTriple_cons _ _ (ih (fun kv hkv => h kv (List.mem_cons_of_mem _ hkv))) ?_
      exact Or.inr (Or.inl (by rw [serializeBody_head_cons]; decide))

theorem noTriple_serialize (F : FileState)
    (h : ∀ kv ∈ F, noTriple kv.1 = true ∧ noTriple kv.2 = true) :
    noTriple (serializeFileState F) = true := by
  show noTriple (chLBrace :: (serializeBody F ++ [chRBrace])) = true
  have hinner : noTriple (serializeBody F ++ [chRBrace]) = true :=
    noTriple_append _ _ (noTriple_serializeBody F h) rfl (Or.inr (by decide))
  exact noTriple_cons _ _ hinner (Or.inl (by decide))

theorem serialize_head (F : FileState) :
    (serializeFileState F).head? = some chLBrace := rfl

theorem serialize_getLast (F : FileState) :
    (serializeFileState F).getLast? = some chRBrace := by
  show (chLBrace :: serializeBody F ++ [chRBrace]).getLast? = _
  rw [show chLBrace :: serializeBody F ++ [chRBrace] =
    (chLBrace :: serializeBody F) ++ [chRBrace] from rfl]
  exact List.getLast?_concat _

theorem leadMatch_self_append (p r : Str) : leadMatch p (p ++ r) = true := by
  induction p with
  | nil => rfl
  | cons c p' ih =>
    show (c = c && leadMatch p' (p' ++ r)) = true
    rw [ih]
    simp

theorem splitFirst_at_start (pat s : Str) (h : leadMatch pat s = true) :
    splitFirst pat s = some ([], s.drop pat.length) := by
  match s with
  | [] =>
    show (if leadMatch pat [] then some (([] : Str), ([] : Str)) else none) = _
    rw [h]
    simp
  | c :: rest =>
    show (if leadMatch pat (c :: rest) = true then _ else _) = _
    rw [h]
    simp

theorem fenceMatch_none (s : Str) (h : noTriple s = true) : fenceMatch s = none := by
  unfold fenceMatch
  rw [splitFirst_none_of_noTriple fenceOpen
    (fun t ht => leadMatch_append_left tick3 (str "json") t (by rw [← fenceOpen_split]; exact ht))
    s h]

theorem leadMatch_tick3_elim (s : Str) (h : leadMatch tick3 s = true) :
    ∃ w, s = chTick :: chTick :: chTick :: w := by
  rw [tick3_eq] at h
  match s, h with
  | [], h => cases h
  | [c], h => simp [leadMatch] at h
  | [c1, c2], h => simp [leadMatch] at h
  | c1 :: c2 :: c3 :: w, h =>
    simp [leadMatch] at h
    exact ⟨w, by rw [← h.1, ← h.2.1, ← h.2.2]⟩

theorem splitFirst_tick3_after (A : Str) :
    ∀ r : Str, noTriple A = true → A.getLast? ≠ some chTick →
      splitFirst tick3 (A ++ (tick3 ++ r)) = some (A, r) := by
  induction A with
  | nil =>
    intro r _ _
    rw [List.nil_append, splitFirst_at_start tick3 _ (leadMatch_self_append tick3 r)]
    rw [List.drop_left]
  | cons x A' ih =>
    intro r hA hlast
    have hnolm : leadMatch tick3 (x :: (A' ++ (tick3 ++ r))) = false := by
      cases hlm : leadMatch tick3 (x :: (A' ++ (tick3 ++ r)))
      · rfl
      · obtain ⟨w, hw⟩ := leadMatch_tick3_elim _ hlm
        match A', hw, hA, hlast with
        | [], hw, _, hlast =>
          have hx : x = chTick := by
            injection hw
          exact absurd (show (([x] : Str)).getLast? = some chTick by simp [hx]) hlast
        | [y], hw, _, hlast =>
          injection hw with hx hw2
          injection hw2 with hy _
          exact absurd (show (([x, y] : Str)).getLast? = some chTick by simp [hy]) hlast
        | y :: z :: A'', hw, hA, _ =>
          injection hw with hx hw2
          injection hw2 with hy hw3
          injection hw3 with hz _
          exact absurd ⟨hx, hy, hz⟩ (noTriple_head_window x y z A'' hA)
    show (if leadMatch tick3 (x :: A' ++ (tick3 ++ r)) = true then _ else _) = _
    rw [show x :: A' ++ (tick3 ++ r) = x :: (A' ++ (tick3 ++ r)) from rfl, hnolm]
    simp only [Bool.false_eq_true, if_false]
    have hrec := ih r (noTriple_tail x A' hA) (by
      intro hcon
      refine hlast ?_
      match A', hcon with
      | y :: A'', hcon =>
        rw [List.getLast?_cons_cons]
        exact hcon)
    simp only [List.append_eq]
    rw [hrec]

theorem dropWhile_cons_false (p : Char → Bool) (c : Char) (l : Str) (h : p c = false) :
    List.dropWhile p (c :: l) = c :: l := by
  simp [List.dropWhile, h]

theorem trimStr_eq_self (s : Str)
    (hh : ∀ c, s.head? = some c → isJsWs c = false)
    (hl : ∀ c, s.getLast? = some c → isJsWs c = false) : trimStr s = s := by
  unfold trimStr dropTrailing
  have h1 : s.dropWhile isJsWs = s := by
    match s with
    | [] => rfl
    | c :: rest => exact dropWhile_cons_false isJsWs c rest (hh c rfl)
  rw [h1]
  have h2 : s.reverse.dropWhile isJsWs = s.reverse := by
    match hrev : s.reverse with
    | [] => rfl
    | c :: rest =>
      refine dropWhile_cons_false isJsWs c rest (hl c ?_)
      rw [← List.head?_reverse]
      rw [hrev]
      rfl
  rw [h2, List.reverse_reverse]

theorem dropTrailing_ws_lf (X : Str) (hX : X.getLast? = some chRBrace) :
    dropTrailing isJsWs (X ++ [chLF]) = X := by
  unfold dropTrailing
  rw [List.reverse_append]
  show ((chLF :: X.reverse).dropWhile isJsWs).reverse = X
  have h1 : (chLF :: X.reverse).dropWhile isJsWs = X.reverse.dropWhile isJsWs := by
    simp [List.dropWhile, isJsWs]
  rw [h1]
  have h2 : X.reverse.dropWhile isJsWs = X.reverse := by
    match hrev : X.reverse with
    | [] => rfl
    | c :: rest =>
      have hc : c = chRBrace := by
        have := List.head?_reverse X
        rw [hrev] at this
        rw [hX] at this
        injection this
      refine dropWhile_cons_false isJsWs c rest (by rw [hc]; decide)
  rw [h2, List.reverse_reverse]

theorem scan_str_backslash (rest : Str) (d : Int) :
    braceScanLen (chBackslash :: rest) d true false =
      (braceScanLen rest d true true).map (· + 1) := by
  simp [braceScanLen]

theorem scan_str_escaped (c : Char) (rest : Str) (d : Int) :
    braceScanLen (c :: rest) d true true =
      (braceScanLen rest d true false).map (· + 1) := by
  simp [braceScanLen]

theorem scan_str_quote (rest : Str) (d : Int) :
    braceScanLen (chQuote :: rest) d true false =
      (braceScanLen rest d false false).map (· + 1) := by
  have h : (chQuote = chBackslash) = False := by decide
  simp [braceScanLen, h]

theorem scan_str_plain (c : Char) (rest : Str) (d : Int)
    (h1 : c ≠ chBackslash) (h2 : c ≠ chQuote) :
    braceScanLen (c :: rest) d true false =
      (braceScanLen rest d true false).map (· + 1) := by
  simp [braceScanLen, h1, h2]

theorem scan_out_quote (rest : Str) (d : Int) :
    braceScanLen (chQuote :: rest) d false false =
      (braceScanLen rest d true false).map (· + 1) := by
  have h1 : (chQuote = chLBrace) = False := by decide
  have h2 : (chQuote = chRBrace) = False := by decide
  simp [braceScanLen, h1, h2]

theorem scan_out_plain (c : Char) (rest : Str) (d : Int)
    (h1 : c ≠ chLBrace) (h2 : c ≠ chRBrace) (h3 : c ≠ chQuote) :
    braceScanLen (c :: rest) d false false =
      (braceScanLen rest d false false).map (· + 1) := by
  simp [braceScanLen, h1, h2, h3]

theorem scan_out_lbrace (rest : Str) (d : Int) :
    braceScanLen (chLBrace :: rest) d false false =
      (braceScanLen rest (d + 1) false false).map (· + 1) := by
  simp [braceScanLen]

theorem scan_out_rbrace_one (rest : Str) :
    braceScanLen (chRBrace :: rest) 1 false false = some 1 := by
  have h1 : (chRBrace = chLBrace) = False := by decide
  simp [braceScanLen, h1]

theorem hexDigitChar_ne_backslash (k : Nat) (hk : k < 16) : hexDigitChar k ≠ chBackslash := by
  interval_cases k <;> decide

theorem hexDigitChar_ne_quote (k : Nat) (hk : k < 16) : hexDigitChar k ≠ chQuote := by
  interval_cases k <;> decide

set_option maxHeartbeats 1000000 in
theorem scan_escChar (c : Char) (X : Str) (d : Int) :
    braceScanLen (escChar c ++ X) d true false =
      (braceScanLen X d true false).map (· + (escChar c).length) := by
  have hb : ('b' : Char) ≠ chBackslash := by decide
  have hbq : ('b' : Char) ≠ chQuote := by decide
  have ht : ('t' : Char) ≠ chBackslash := by decide
  have htq : ('t' : Char) ≠ chQuote := by decide
  have hn : ('n' : Char) ≠ chBackslash := by decide
  have hnq : ('n' : Char) ≠ chQuote := by decide
  have hf : ('f' : Char) ≠ chBackslash := by decide
  have hfq : ('f' : Char) ≠ chQuote := by decide
  have hr : ('r' : Char) ≠ chBackslash := by decide
  have hrq : ('r' : Char) ≠ chQuote := by decide
  have h0 : ('0' : Char) ≠ chBackslash := by decide
  have h0q : ('0' : Char) ≠ chQuote := by decide
  unfold escChar
  split_ifs with h1 h2 h3 h4 h5 h6 h7 h8
  · simp only [List.cons_append, List.nil_append]
    rw [scan_str_backslash, scan_str_escaped]
    cases braceScanLen X d true false <;> simp
  · simp only [List.cons_append, List.nil_append]
    rw [scan_str_backslash, scan_str_escaped]
    cases braceScanLen X d true false <;> simp
  · simp only [List.cons_append, List.nil_append]
    rw [scan_str_backslash, scan_str_escaped]
    cases braceScanLen X d true false <;> simp
  · simp only [List.cons_append, List.nil_append]
    rw [scan_str_backslash, scan_str_escaped]
    cases braceScanLen X d true false <;> simp
  · simp only [List.cons_append, List.nil_append]
    rw [scan_str_backslash, scan_str_escaped]
    cases braceScanLen X d true false <;> simp
  · simp only [List.cons_append, List.nil_append]
    rw [scan_str_backslash, scan_str_escaped]
    cases braceScanLen X d true false <;> simp
  · simp only [List.cons_append, List.nil_append]
    rw [scan_str_backslash, scan_str_escaped]
    cases braceScanLen X d true false <;> simp
  · have hd1 : c.toNat / 16 < 16 := by omega
    have hd2 : c.toNat % 16 < 16 := by omega
    simp only [List.cons_append, List.nil_append]
    rw [scan_str_backslash, scan_str_escaped,
      scan_str_plain '0' _ _ h0 h0q, scan_str_plain '0' _ _ h0 h0q,
      scan_str_plain _ _ _ (hexDigitChar_ne_backslash _ hd1) (hexDigitChar_ne_quote _ hd1),
      scan_str_plain _ _ _ (hexDigitChar_ne_backslash _ hd2) (hexDigitChar_ne_quote _ hd2)]
    cases braceScanLen X d true false <;> simp
  · simp only [List.cons_append, List.nil_append]
    rw [scan_str_plain c _ _ h2 h1]
    cases braceScanLen X d true false <;> simp

theorem scan_escStr (s : Str) (X : Str) (d : Int) :
    braceScanLen (escStr s ++ X) d true false =
      (braceScanLen X d true false).map (· + (escStr s).length) := by
  induction s with
  | nil =>
    show braceScanLen X d true false = _
    cases braceScanLen X d true false <;> simp [escStr]
  | cons c s' ih =>
    show braceScanLen (escChar c ++ escStr s' ++ X) d true false = _
    rw [List.append_assoc, scan_escChar, ih]
    cases braceScanLen X d true false <;> simp [escStr] <;> omega

theorem scan_quoteStr (s : Str) (X : Str) (d : Int) :
    braceScanLen (quoteStr s ++ X) d false false =
      (braceScanLen X d false false).map (· + (quoteStr s).length) := by
  show braceScanLen (chQuote :: (escStr s ++ [chQuote]) ++ X) d false false = _
  rw [show chQuote :: (escStr s ++ [chQuote]) ++ X =
    chQuote :: (escStr s ++ (chQuote :: X)) by simp]
  rw [scan_out_quote, scan_escStr, scan_str_quote]
  cases braceScanLen X d false false <;> simp [quoteStr] <;> omega

theorem scan_serializeEntry (e : Str × Str) (X : Str) (d : Int) :
    braceScanLen (serializeEntry e ++ X) d false false =
      (braceScanLen X d false false).map (· + (serializeEntry e).length) := by
  have hc1 : (':' : Char) ≠ chLBrace := by decide
  have hc2 : (':' : Char) ≠ chRBrace := by decide
  have hc3 : (':' : Char) ≠ chQuote := by decide
  show braceScanLen (quoteStr e.1 ++ ':' :: quoteStr e.2 ++ X) d false false = _
  rw [show quoteStr e.1 ++ ':' :: quoteStr e.2 ++ X =
    quoteStr e.1 ++ (':' :: (quoteStr e.2 ++ X)) by simp]
  rw [scan_quoteStr, scan_out_plain ':' _ _ hc1 hc2 hc3, scan_quoteStr]
  cases braceScanLen X d false false <;> simp [serializeEntry] <;> omega

theorem scan_serializeBody (F : FileState) (X : Str) (d : Int) :
    braceScanLen (serializeBody F ++ X) d false false =
      (braceScanLen X d false false).map (· + (serializeBody F).length) := by
  have hc1 : (',' : Char) ≠ chLBrace := by decide
  have hc2 : (',' : Char) ≠ chRBrace := by decide
  have hc3 : (',' : Char) ≠ chQuote := by decide
  induction F with
  | nil =>
    show braceScanLen X d false false = _
    cases braceScanLen X d false false <;> simp [serializeBody]
  | cons e rest ih =>
    match rest with
    | [] =>
      show braceScanLen (serializeEntry e ++ X) d false false = _
      rw [scan_serializeEntry]
      rfl
    | r2 :: rest2 =>
      show braceScanLen (serializeEntry e ++ ',' :: serializeBody (r2 :: rest2) ++ X)
        d false false = _
      rw [show serializeEntry e ++ ',' :: serializeBody (r2 :: rest2) ++ X =
        serializeEntry e ++ (',' :: (serializeBody (r2 :: rest2) ++ X)) by simp]
      rw [scan_serializeEntry, scan_out_plain ',' _ _ hc1 hc2 hc3, ih]
      cases braceScanLen X d false false <;>
        simp [serializeBody, List.length_append] <;> omega

theorem scan_serialize (F : FileState) (X : Str) :
    braceScanLen (serializeFileState F ++ X) 0 false false =
      some (serializeFileState F).length := by
  show braceScanLen (chLBrace :: serializeBody F ++ [chRBrace] ++ X) 0 false false = _
  rw [show chLBrace :: serializeBody F ++ [chRBrace] ++ X =
    chLBrace :: (serializeBody F ++ (chRBrace :: X)) by simp]
  rw [scan_out_lbrace, scan_serializeBody]
  rw [show (0 : Int) + 1 = 1 from rfl, scan_out_rbrace_one]
  simp [serializeFileState]
  omega

theorem splitFirst_single_first (c : Char) (pre : Str) :
    ∀ suf : Str, c ∉ pre → splitFirst [c] (pre ++ c :: suf) = some (pre, suf) := by
  induction pre with
  | nil =>
    intro suf _
    rw [List.nil_append]
    have hlm : leadMatch [c] (c :: suf) = true := by
      show (c = c && true) = true
      simp
    rw [splitFirst_at_start [c] _ hlm]
    rfl
  | cons x pre' ih =>
    intro suf h
    have hne : c ≠ x := fun he => h (he ▸ List.mem_cons_self x pre')
    have hlm : leadMatch [c] (x :: (pre' ++ c :: suf)) = false := by
      show (c = x && true) = false
      simp [hne]
    show (if leadMatch [c] (x :: pre' ++ c :: suf) = true then _ else _) = _
    rw [show x :: pre' ++ c :: suf = x :: (pre' ++ c :: suf) from rfl, hlm]
    simp only [Bool.false_eq_true, if_false]
    simp only [List.append_eq]
    rw [ih suf (fun hm => h (List.mem_cons_of_mem x hm))]

theorem braceSpan_prose (F : FileState) (pre post : Str) (hpre : chLBrace ∉ pre) :
    braceSpanCandidate (pre ++ (serializeFileState F ++ post)) = serializeFileState F := by
  unfold braceSpanCandidate
  have hshape : pre ++ (serializeFileState F ++ post) =
      pre ++ chLBrace :: ((serializeBody F ++ [chRBrace]) ++ post) := by
    simp [serializeFileState]
  rw [hshape, splitFirst_single_first chLBrace pre _ hpre]
  have hfrom : chLBrace :: ((serializeBody F ++ [chRBrace]) ++ post) =
      serializeFileState F ++ post := by
    simp [serializeFileState]
  show (match braceScanLen (chLBrace :: ((serializeBody F ++ [chRBrace]) ++ post))
      0 false false with
    | some n => (chLBrace :: ((serializeBody F ++ [chRBrace]) ++ post)).take n
    | none => pre ++ chLBrace :: ((serializeBody F ++ [chRBrace]) ++ post)) = _
  rw [hfrom, scan_serialize F post]
  show (serializeFileState F ++ post).take (serializeFileState F).length = _
  rw [List.take_left]

theorem leadMatch_fenceOpen_false (s : Str) (h : noTriple s = true) :
    leadMatch fenceOpen s = false := by
  cases hlm : leadMatch fenceOpen s
  · rfl
  · have h1 : leadMatch tick3 s = true :=
      leadMatch_append_left tick3 (str "json") s (by rw [← fenceOpen_split]; exact hlm)
    rw [leadMatch_tick3_false s h] at h1
    cases h1

theorem leadMatch_nlTick3_false (s : Str) (h : noTriple s = true) :
    leadMatch nlTick3 s = false := by
  match s with
  | [] => rfl
  | c :: rest =>
    show (chLF = c && leadMatch tick3 rest) = false
    rw [leadMatch_tick3_false rest (noTriple_tail c rest h), Bool.and_false]

theorem replaceFencesGo_id (fuel : Nat) :
    ∀ s : Str, noTriple s = true → replaceFencesGo fuel s = s := by
  induction fuel with
  | zero => intro s _; rfl
  | succ f ih =>
    intro s h
    match s with
    | [] => rfl
    | c :: rest =>
      show (if leadMatch fenceOpen (c :: rest) = true then _
        else if leadMatch tick3 (c :: rest) = true then _
        else if leadMatch nlTick3 (c :: rest) = true then _
        else c :: replaceFencesGo f rest) = c :: rest
      rw [leadMatch_fenceOpen_false _ h, leadMatch_tick3_false _ h,
        leadMatch_nlTick3_false _ h]
      simp only [Bool.false_eq_true, if_false]
      rw [ih rest (noTriple_tail c rest h)]

theorem replaceFences_id (s : Str) (h : noTriple s = true) : replaceFences s = s :=
  replaceFencesGo_id s.length s h

theorem isHexDigit_hexDigitChar (k : Nat) (hk : k < 16) :
    isHexDigit (hexDigitChar k) = true := by
  interval_cases k <;> decide

theorem hexVal_hexDigitChar (k : Nat) (hk : k < 16) : hexVal (hexDigitChar k) = k := by
  interval_cases k <;> decide

theorem parseStringBody_escStr (s : Str) : ∀ rest : Str,
    parseStringBody (escStr s ++ chQuote :: rest) = some (s, rest) := by
  induction s with
  | nil =>
    intro rest
    show parseStringBody (chQuote :: rest) = _
    rw [parseStringBody.eq_def]
    simp
  | cons c s' ih =>
    intro rest
    have hX := ih rest
    show parseStringBody ((escChar c ++ escStr s') ++ chQuote :: rest) = _
    rw [List.append_assoc]
    unfold escChar
    split_ifs with h1 h2 h3 h4 h5 h6 h7 h8
    · simp only [List.cons_append, List.nil_append]
      rw [parseStringBody.eq_def]
      simp +decide [unescapeChar, hX, h1]
    · simp only [List.cons_append, List.nil_append]
      rw [parseStringBody.eq_def]
      simp +decide [unescapeChar, hX, h2]
    · simp only [List.cons_append, List.nil_append]
      rw [parseStringBody.eq_def]
      simp +decide [unescapeChar, hX, h3]
    · simp only [List.cons_append, List.nil_append]
      rw [parseStringBody.eq_def]
      simp +decide [unescapeChar, hX, h4]
    · simp only [List.cons_append, List.nil_append]
      rw [parseStringBody.eq_def]
      simp +decide [unescapeChar, hX, h5]
    · simp only [List.cons_append, List.nil_append]
      rw [parseStringBody.eq_def]
      simp +decide [unescapeChar, hX, h6]
    · simp only [List.cons_append, List.nil_append]
      rw [parseStringBody.eq_def]
      simp +decide [unescapeChar, hX, h7]
    · have ha1 : isHexDigit (hexDigitChar (c.toNat / 16)) = true :=
        isHexDigit_hexDigitChar _ (by omega)
      have ha2 : isHexDigit (hexDigitChar (c.toNat % 16)) = true :=
        isHexDigit_hexDigitChar _ (by omega)
      have hv1 : hexVal (hexDigitChar (c.toNat / 16)) = c.toNat / 16 :=
        hexVal_hexDigitChar _ (by omega)
      have hv2 : hexVal (hexDigitChar (c.toNat % 16)) = c.toNat % 16 :=
        hexVal_hexDigitChar _ (by omega)
      have hval : ((hexVal '0' * 16 + hexVal '0') * 16 + c.toNat / 16) * 16 + c.toNat % 16
          = c.toNat := by
        have h0v : hexVal '0' = 0 := by decide
        rw [h0v]
        omega
      simp only [List.cons_append, List.nil_append]
      rw [parseStringBody.eq_def]
      simp +decide [ha1, ha2, hv1, hv2, hX, hval, Char.ofNat_toNat]
    · simp only [List.cons_append, List.nil_append]
      rw [parseStringBody.eq_def]
      simp [h1, h2, h8, hX]

theorem skipWs_cons_false (c : Char) (l : Str) (h : isJsonWs c = false) :
    skipWs (c :: l) = c :: l := dropWhile_cons_false isJsonWs c l h

theorem parseF_value_quoteStr (g : Nat) (s rest : Str) :
    parseF (g + 1) ParseMode.value (quoteStr s ++ rest) =
      some (ParsePiece.val (JsonValue.str s), rest) := by
  have hshape : quoteStr s ++ rest = chQuote :: (escStr s ++ chQuote :: rest) := by
    simp [quoteStr]
  have hsw := skipWs_cons_false chQuote (escStr s ++ chQuote :: rest) (by decide)
  have hps := parseStringBody_escStr s rest
  rw [hshape, parseF.eq_def]
  simp +decide [hsw, hps]

theorem parseF_members_serialize (F : FileState) : ∀ (g : Nat) (rest : Str),
    F.length + 1 ≤ g →
    parseF g ParseMode.members (serializeBody F ++ chRBrace :: rest) =
      some (ParsePiece.members (jsonEntries F), rest) := by
  induction F with
  | nil =>
    intro g rest hg
    obtain ⟨g', rfl⟩ : ∃ g', g = g' + 1 := ⟨g - 1, by omega⟩
    show parseF (g' + 1) ParseMode.members (chRBrace :: rest) = _
    have hsw := skipWs_cons_false chRBrace rest (by decide)
    rw [parseF.eq_def]
    simp +decide [hsw, jsonEntries]
  | cons e F' ih =>
    intro g rest hg
    obtain ⟨g'', rfl⟩ : ∃ g'', g = (g'' + 1) + 1 := by
      refine ⟨g - 2, ?_⟩
      simp only [List.length_cons] at hg
      omega
    cases F' with
    | nil =>
      have hshape : serializeBody [e] ++ chRBrace :: rest =
          chQuote :: (escStr e.1 ++ chQuote :: (':' :: (quoteStr e.2 ++ chRBrace :: rest))) := by
        simp [serializeBody, serializeEntry, quoteStr]
      have hsw := skipWs_cons_false chQuote
        (escStr e.1 ++ chQuote :: (':' :: (quoteStr e.2 ++ chRBrace :: rest))) (by decide)
      have hps := parseStringBody_escStr e.1 (':' :: (quoteStr e.2 ++ chRBrace :: rest))
      have hsw2 := skipWs_cons_false ':' (quoteStr e.2 ++ chRBrace :: rest) (by decide)
      have hv := parseF_value_quoteStr g'' e.2 (chRBrace :: rest)
      have hsw3 := skipWs_cons_false chRBrace rest (by decide)
      rw [hshape, parseF.eq_def]
      simp +decide [hsw, hps, hsw2, hv, hsw3, jsonEntries]
    | cons e2 F'' =>
      have hshape : serializeBody (e :: e2 :: F'') ++ chRBrace :: rest =
          chQuote :: (escStr e.1 ++ chQuote :: (':' :: (quoteStr e.2 ++
            ',' :: (serializeBody (e2 :: F'') ++ chRBrace :: rest)))) := by
        simp [serializeBody, serializeEntry, quoteStr]
      have hsw := skipWs_cons_false chQuote
        (escStr e.1 ++ chQuote :: (':' :: (quoteStr e.2 ++
          ',' :: (serializeBody (e2 :: F'') ++ chRBrace :: rest)))) (by decide)
      have hps := parseStringBody_escStr e.1
        (':' :: (quoteStr e.2 ++ ',' :: (serializeBody (e2 :: F'') ++ chRBrace :: rest)))
      have hsw2 := skipWs_cons_false ':'
        (quoteStr e.2 ++ ',' :: (serializeBody (e2 :: F'') ++ chRBrace :: rest)) (by decide)
      have hv := parseF_value_quoteStr g'' e.2
        (',' :: (serializeBody (e2 :: F'') ++ chRBrace :: rest))
      have hsw3 := skipWs_cons_false ','
        (serializeBody (e2 :: F'') ++ chRBrace :: rest) (by decide)
      have hrec := ih (g'' + 1) rest (by
        simp only [List.length_cons] at hg ⊢
        omega)
      rw [hshape, parseF.eq_def]
      simp +decide [hsw, hps, hsw2, hv, hsw3, hrec, jsonEntries]

theorem serializeBody_length_ge (F : FileState) :
    F.length ≤ (serializeBody F).length := by
  induction F with
  | nil => simp [serializeBody]
  | cons e rest ih =>
    cases rest with
    | nil => simp [serializeBody, serializeEntry, quoteStr]
    | cons r2 rest2 =>
      show (r2 :: rest2).length + 1 ≤
        (serializeEntry e ++ ',' :: serializeBody (r2 :: rest2)).length
      simp only [List.length_append, List.length_cons, serializeEntry, quoteStr] at ih ⊢
      omega

theorem jsonParse_serialize (F : FileState) :
    jsonParse (serializeFileState F) = some (JsonValue.obj (jsonEntries F)) := by
  unfold jsonParse
  have hlen : (serializeFileState F).length = (serializeBody F).length + 2 := by
    simp [serializeFileState]
  have hshape : serializeFileState F = chLBrace :: (serializeBody F ++ chRBrace :: []) := by
    simp [serializeFileState]
  have hsw := skipWs_cons_false chLBrace (serializeBody F ++ chRBrace :: []) (by decide)
  have hm := parseF_members_serialize F ((serializeBody F).length + 2) []
    (by have := serializeBody_length_ge F; omega)
  rw [hlen, hshape, parseF.eq_def]
  simp +decide [hsw, hm, skipWs]

theorem objInsert_notmem (A : FileState) (k v : Str) :
    ∀ _ : (∀ kv ∈ A, kv.1 ≠ k), objInsert A k v = A ++ [(k, v)] := by
  induction A with
  | nil => intro _; rfl
  | cons kv0 A' ih =>
    intro h
    obtain ⟨k0, v0⟩ := kv0
    have hne : k0 ≠ k := h (k0, v0) (List.mem_cons_self _ _)
    show (if k0 = k then _ else (k0, v0) :: objInsert A' k v) = _
    rw [if_neg hne, ih (fun kv hkv => h kv (List.mem_cons_of_mem _ hkv))]
    rfl

theorem foldl_coerce_entries (F : FileState) : ∀ A : FileState,
    (∀ kv ∈ F, ∀ kv' ∈ A, kv'.1 ≠ kv.1) →
    (F.map (fun kv => kv.1)).Nodup →
    List.foldl (fun acc kv => objInsert acc kv.1 (coerceVal kv.2)) A (jsonEntries F)
      = A ++ F := by
  induction F with
  | nil =>
    intro A _ _
    simp [jsonEntries]
  | cons e F' ih =>
    intro A hdisj hnd
    have hnd' : (F'.map (fun kv => kv.1)).Nodup := by
      simp only [List.map_cons, List.nodup_cons] at hnd
      exact hnd.2
    have hnotin : e.1 ∉ F'.map (fun kv => kv.1) := by
      simp only [List.map_cons, List.nodup_cons] at hnd
      exact hnd.1
    show List.foldl _ A ((e.1, JsonValue.str e.2) :: jsonEntries F') = _
    rw [List.foldl_cons]
    have hstep : objInsert A e.1 (coerceVal (JsonValue.str e.2)) = A ++ [e] := by
      show objInsert A e.1 e.2 = A ++ [e]
      rw [objInsert_notmem A e.1 e.2 (fun kv hkv => hdisj e (List.mem_cons_self _ _) kv hkv)]
    have hdisj' : ∀ kv ∈ F', ∀ kv' ∈ A ++ [e], kv'.1 ≠ kv.1 := by
      intro kv hkv kv' hkv'
      rcases List.mem_append.mp hkv' with hA | he
      · exact hdisj kv (List.mem_cons_of_mem _ hkv) kv' hA
      · have heq : kv' = e := by simpa using he
        subst heq
        intro hk
        exact hnotin (hk ▸ List.mem_map_of_mem _ hkv)
    show List.foldl (fun acc kv => objInsert acc kv.1 (coerceVal kv.2))
      (objInsert A e.1 (coerceVal (JsonValue.str e.2))) (jsonEntries F') = _
    rw [hstep, ih (A ++ [e]) hdisj' hnd', List.append_assoc]
    rfl

theorem fenceMatch_fenceWrap (F : FileState)
    (hσ : noTriple (serializeFileState F) = true) :
    fenceMatch (fenceWrap (serializeFileState F)) = some (serializeFileState F) := by
  have hshape : fenceWrap (serializeFileState F) =
      fenceOpen ++ (chLF :: (serializeFileState F ++ (chLF :: tick3))) := by
    simp [fenceWrap, fenceOpen, tick3]
  have hsp0 : splitFirst fenceOpen
      (fenceOpen ++ (chLF :: (serializeFileState F ++ (chLF :: tick3)))) =
      some ([], chLF :: (serializeFileState F ++ (chLF :: tick3))) := by
    rw [splitFirst_at_start fenceOpen _ (leadMatch_self_append _ _), List.drop_left]
  have hdw : (chLF :: (serializeFileState F ++ (chLF :: tick3))).dropWhile isJsWs
      = serializeFileState F ++ (chLF :: tick3) := by
    have hcons : serializeFileState F ++ (chLF :: tick3) =
        chLBrace :: ((serializeBody F ++ [chRBrace]) ++ (chLF :: tick3)) := by
      simp [serializeFileState]
    rw [List.dropWhile_cons_of_pos (by decide), hcons,
      dropWhile_cons_false isJsWs chLBrace _ (by decide)]
  have hsp : splitFirst tick3 (serializeFileState F ++ (chLF :: tick3)) =
      some (serializeFileState F ++ [chLF], []) := by
    have hshape2 : serializeFileState F ++ (chLF :: tick3) =
        (serializeFileState F ++ [chLF]) ++ (tick3 ++ []) := by simp
    rw [hshape2]
    refine splitFirst_tick3_after (serializeFileState F ++ [chLF]) [] ?_ ?_
    · refine noTriple_append _ _ hσ rfl (Or.inl ?_)
      rw [serialize_getLast]
      decide
    · rw [List.getLast?_concat]
      decide
  have hdt : dropTrailing isJsWs (serializeFileState F ++ [chLF]) = serializeFileState F :=
    dropTrailing_ws_lf _ (serialize_getLast F)
  rw [fenceMatch, hshape, hsp0]
  simp only [hdw, hsp, hdt]

/-- C1 (amended): extraction inverts serialization for every non-empty
FileState whose paths are distinct and whose paths and contents contain no
`` ``` `` substring, both when the serialization is surrounded by prose that
contains no `` ``` `` and no `{` before the serialization, and when it is
wrapped in a `` ```json `` fenced block.  (route.ts:135-203.) -/
theorem extract_serialize_roundtrip (F : FileState) (pre post : Str)
    (hne : F ≠ [])
    (hnd : (F.map (fun kv => kv.1)).Nodup)
    (hft : ∀ kv ∈ F, noTriple kv.1 = true ∧ noTriple kv.2 = true)
    (hpre : noTriple pre = true) (hpost : noTriple post = true)
    (hbrace : chLBrace ∉ pre) :
    extractAndParseJSON (pre ++ (serializeFileState F ++ post)) = Except.ok F ∧
    extractAndParseJSON (fenceWrap (serializeFileState F)) = Except.ok F := by
  have hσ : noTriple (serializeFileState F) = true := noTriple_serialize F hft
  have htrim : trimStr (serializeFileState F) = serializeFileState F := by
    refine trimStr_eq_self _ ?_ ?_
    · intro c hc
      rw [serialize_head] at hc
      injection hc with h
      rw [← h]
      decide
    · intro c hc
      rw [serialize_getLast] at hc
      injection hc with h
      rw [← h]
      decide
  have hrepl : replaceFences (serializeFileState F) = serializeFileState F :=
    replaceFences_id _ hσ
  have hparse := jsonParse_serialize F
  have hfold := foldl_coerce_entries F []
    (by intro kv _ kv' h; exact absurd h (List.not_mem_nil _)) hnd
  have hie : F.isEmpty = false := by
    cases F with
    | nil => exact absurd rfl hne
    | cons a b => rfl
  constructor
  · have hwhole : noTriple (pre ++ (serializeFileState F ++ post)) = true := by
      refine noTriple_append pre _ hpre ?_ ?_
      · refine noTriple_append _ post hσ hpost (Or.inl ?_)
        rw [serialize_getLast]
        decide
      · right
        have hcons : serializeFileState F ++ post =
            chLBrace :: ((serializeBody F ++ [chRBrace]) ++ post) := by
          simp [serializeFileState]
        rw [hcons]
        simp only [List.head?_cons]
        decide
    have hfm : fenceMatch (pre ++ (serializeFileState F ++ post)) = none :=
      fenceMatch_none _ hwhole
    have hbs := braceSpan_prose F pre post hbrace
    simp only [extractAndParseJSON]
    simp [hfm, hbs, hrepl, htrim, hparse, jsEntries, hfold, hie]
  · have hfm2 := fenceMatch_fenceWrap F hσ
    simp only [extractAndParseJSON]
    simp [hfm2, hrepl, htrim, hparse, jsEntries, hfold, hie]

/-- C1 counterexample: the roundtrip claimed for every FileState fails.  A
content string containing `` ``` `` is mangled (route.ts:173 strips the
backticks before parsing), so the extractor returns a different map; the empty
map is rejected outright (route.ts:190); and prose containing `{` before the
serialization derails the brace scan into a parse failure. -/
theorem extract_roundtrip_cex :
    extractAndParseJSON (serializeFileState cexTickF) =
      Except.ok [(str "a.js", str "x")] ∧
    cexTickF ≠ [(str "a.js", str "x")] ∧
    extractAndParseJSON (serializeFileState ([] : FileState)) =
      Except.error (str "Failed to parse generated code: No files generated") ∧
    extractAndParseJSON (chLBrace :: serializeFileState [(str "a.js", str "x")]) =
      Except.error (str "Failed to parse generated code: Unexpected token in JSON") := by
  refine ⟨by decide, by decide, by decide, by decide⟩

/-- C1 witness: the amended roundtrip at a concrete one-file state, with
prose `see ... done` and with the fenced wrapping. -/
theorem extract_serialize_roundtrip_witness :
    extractAndParseJSON (str "see " ++ (serializeFileState [(str "a.js", str "x+1")]
      ++ str " done")) = Except.ok [(str "a.js", str "x+1")] ∧
    extractAndParseJSON (fenceWrap (serializeFileState [(str "a.js", str "x+1")])) =
      Except.ok [(str "a.js", str "x+1")] :=
  extract_serialize_roundtrip [(str "a.js", str "x+1")] (str "see ") (str " done")
    (by decide) (by decide) (by decide) (by decide) (by decide) (by decide)

/-! Concrete SSE frames for the C6 streaming counterexample. -/

/-- C6 counterexample: the streaming reader (route.ts:895-923) never inspects
`stop_reason`; with an upstream stream whose frames report
`stop_reason: "max_tokens"`, the task still attempts JSON extraction of the
accumulated deltas and emits `complete` — no truncation-specific error and no
`error` at all. -/
theorem streaming_truncation_cex :
    ((runStreamingTask cexStreamEnv false none none).countP (fun e => isCompleteEvt e)) = 1 ∧
    ((runStreamingTask cexStreamEnv false none none).countP (fun e => isErrorEvt e)) = 0 ∧
    SEvent.complete (str "id1") [⟨str "/a.js", FileStatus.new, none⟩] cexInnerFiles false
      ∈ runStreamingTask cexStreamEnv false none none := by
  decide

/-- C6 (amended): in non-streaming mode a `max_tokens` stop reason fails with
the truncation-specific error, whatever the response content — extraction is
never attempted.  (In streaming mode the stop reason is not inspected and
extraction proceeds.) -/
theorem nonstreaming_truncation (env : NonStreamingEnv) (iter : Bool)
    (ef cf : Option FileState) (uid : Str) (data : ApiResponse)
    (hfetch : env.fetchResult = Except.ok data)
    (hstop : data.stopReason = some (str "max_tokens")) :
    runNonStreaming env iter ef cf uid =
      Except.error (str "Response truncated: Increase max_tokens or simplify prompt") := by
  rw [runNonStreaming.eq_def, hfetch]
  simp [hstop]

/-- C6 witness: the truncation error at a concrete response whose content is
not even valid JSON (extraction would fail if it were attempted; the
truncation error is produced instead). -/
theorem nonstreaming_truncation_witness :
    runNonStreaming
        ⟨Except.ok ⟨[some (str "garbage not json")], some (str "max_tokens")⟩,
          Except.ok (str "id")⟩ false none none (str "u") =
      Except.error (str "Response truncated: Increase max_tokens or simplify prompt") :=
  nonstreaming_truncation _ false none none (str "u") _ rfl rfl

/-- C10: both client stream consumers leave their state unchanged on a `file`
event whose `content` is absent or the empty string (so such a file is never
added to the working map or the generated-files list); the workspace consumer
replaces its `files` map with the payload's `fullFiles` on `complete`, which
is the only way an empty-content file reaches the client state. -/
theorem client_empty_file_events :
    (∀ (prevFiles : FileState) (ws : WsState) (p3 : P3State) (e : ClientEvent),
      e.type = str "file" → (e.content = none ∨ e.content = some []) →
      wsProcessEvent prevFiles ws e = Except.ok ws ∧
      p3ProcessEvent p3 e = Except.ok p3) ∧
    (∀ (prevFiles : FileState) (ws : WsState) (e : ClientEvent) (full : FileState),
      e.type = str "complete" → e.fullFiles = some full →
      ∃ st, wsProcessEvent prevFiles ws e = Except.ok st ∧ st.files = full ∧
        st.streamedFiles = ws.streamedFiles ∧
        st.generatedFilesList = ws.generatedFilesList) := by
  constructor
  · intro prevFiles ws p3 e htype hcontent
    have hct : truthyOptStr e.content = false := by
      rcases hcontent with h | h <;> rw [h] <;> rfl
    have hfile_ne_complete : (str "file" = str "complete") = False := by decide
    have hfile_ne_error : (str "file" = str "error") = False := by decide
    constructor
    · rw [wsProcessEvent, htype, hct]
      simp [hfile_ne_complete, hfile_ne_error]
    · rw [p3ProcessEvent, htype, hct]
      simp
  · intro prevFiles ws e full htype hff
    have hA : (decide (str "complete" = str "file")) = false :=
      decide_eq_false (by decide)
    have hB : (decide (str "complete" = str "complete")) = true :=
      decide_eq_true rfl
    refine ⟨{ ws with
        files := full,
        changedFiles := e.changedFiles.getD [],
        conversationId :=
          if truthyOptStr e.conversationId then e.conversationId else ws.conversationId,
        isStreaming := false }, ?_, rfl, rfl, rfl⟩
    rw [wsProcessEvent, htype, hff]
    simp only [hA, hB, Bool.false_and, Bool.and_false, if_false, if_true,
      Bool.false_eq_true, Option.getD_some]

/-- C10 witness: a concrete empty-content `file` event is dropped by both
consumers, and a concrete `complete` event installs `fullFiles` (including its
empty-content entry) as the workspace `files` map. -/
theorem client_empty_file_events_witness :
    (wsProcessEvent [] ⟨[], [], [], [], none, true⟩
        ⟨str "file", some (str "/a.js"), some [], none, none, none, none, none⟩ =
      Except.ok ⟨[], [], [], [], none, true⟩) ∧
    (p3ProcessEvent ⟨[]⟩
        ⟨str "file", some (str "/a.js"), some [], none, none, none, none, none⟩ =
      Except.ok ⟨[]⟩) ∧
    (∃ st, wsProcessEvent [] ⟨[], [], [], [], none, true⟩
        ⟨str "complete", none, none, none, some [(str "/a.js", [])], none, none, none⟩ =
          Except.ok st ∧ st.files = [(str "/a.js", [])] ∧
          st.streamedFiles = [] ∧ st.generatedFilesList = []) := by
  refine ⟨?_, ?_, ?_⟩
  · exact (client_empty_file_events.1 [] ⟨[], [], [], [], none, true⟩ ⟨[]⟩ _
      rfl (Or.inr rfl)).1
  · exact (client_empty_file_events.1 [] ⟨[], [], [], [], none, true⟩ ⟨[]⟩ _
      rfl (Or.inr rfl)).2
  · exact client_empty_file_events.2 [] ⟨[], [], [], [], none, true⟩ _
      [(str "/a.js", [])] rfl rfl

end Spin
